import Mathlib

/-!
Verification of the JSON <-> WebAssembly-component value bridge of the
wasmic repository.

The definitions below are a shallow embedding of the Rust sources:
  * `src/utils/transform.rs` — `to_wasm_with_type`, `wasm_to_json`,
    `convert_wasm_results_to_json`, `convert_json_to_wasm_value`
  * `src/executor.rs` — `map_named_to_positional_arguments`,
    `get_function_from_instance` (the executor repeats the same
    `convert_json_to_wasm_value` found in `src/utils/transform.rs`)
  * `src/wasm.rs` — `convert_wasm_type_to_json`, `get_exports`

Modelling conventions:
  * `serde_json::Value` is `Json`; `serde_json::Number` is `JNum`, where the
    `I64`/`U64` variants are collapsed into a single `int` constructor (serde
    stores any non-negative integer as `PosInt` and any negative one as
    `NegInt`, so equality identifies the two), and a finite `f64` is carried
    exactly as the rational it denotes.  serde numbers never hold NaN or an
    infinity, so the `float` payload is a plain rational.
  * `wasmtime::component::Val` is `Val`.  A float payload is `Option ℚ`:
    `some q` is a finite float with exact value `q`, `none` is a value
    (NaN or an infinity) that `serde_json::Number::from_f64` refuses,
    matching the only distinction `wasm_to_json` makes.  Rounding of an
    `f64` to `f32` (and of a large integer to a float) is not modelled; no
    claim below depends on a rounded value.  Resource/future/stream payloads
    are opaque and dropped; the code never inspects them.
  * Rust `HashMap` / `serde_json::Map` values are association lists;
    `insertAssoc` mirrors `Map::insert` (replace the value of an existing
    key in place, else append).  `serde_json` map equality is
    order-insensitive, which `jsonEq` below mirrors.
  * Error messages keep the static prefix of the corresponding Rust
    `format!` string; no property below depends on message text.
-/

namespace Wasmic

/-- A `serde_json::Number`: an exactly-represented integer (`I64`/`U64`
collapsed, see module comment) or a finite double given by its exact
rational value. -/
inductive JNum where
  | int (n : Int)
  | float (q : ℚ)
deriving DecidableEq, Repr

/-- A `serde_json::Value`. Objects are association lists in insertion
order. -/
inductive Json where
  | null
  | bool (b : Bool)
  | num (n : JNum)
  | str (s : String)
  | arr (xs : List Json)
  | obj (fs : List (String × Json))
deriving Repr

/-- A `wasmtime::component::Val`. -/
inductive Val where
  | bool (b : Bool)
  | s8 (n : Int)
  | u8 (n : Nat)
  | s16 (n : Int)
  | u16 (n : Nat)
  | s32 (n : Int)
  | u32 (n : Nat)
  | s64 (n : Int)
  | u64 (n : Nat)
  | float32 (q : Option ℚ)
  | float64 (q : Option ℚ)
  | char (c : Char)
  | str (s : String)
  | list (vs : List Val)
  | record (fs : List (String × Val))
  | tuple (vs : List Val)
  | variant (name : String) (payload : Option Val)
  | enum (name : String)
  | option (v : Option Val)
  | result (isOk : Bool) (payload : Option Val)
  | flags (names : List String)
  | resource
  | future
  | stream
  | errorContext
deriving Repr

/-- A `wasmtime::component::Type`. -/
inductive WasmType where
  | bool
  | s8
  | u8
  | s16
  | u16
  | s32
  | u32
  | s64
  | u64
  | float32
  | float64
  | char
  | string
  | list (t : WasmType)
  | record (fields : List (String × WasmType))
  | tuple (ts : List WasmType)
  | variant (cases : List (String × Option WasmType))
  | enum (names : List String)
  | option (t : WasmType)
  | result (ok : Option WasmType) (err : Option WasmType)
  | flags (names : List String)
  | own
  | borrow
  | future (t : Option WasmType)
  | stream (t : Option WasmType)
  | errorContext
deriving Repr

/-- The `WasiMcpError` variants reached by the embedded code (`error.rs`).
Messages keep only the static prefix of the Rust `format!` string. -/
inductive Err where
  | invalidArguments (msg : String)
  | unexpectedExpected (expected got : String)
  | functionNotFound (name : String)
  | interfaceNotFound (name : String)
  | componentNotFound (name : String)
  | execution (msg : String)
deriving DecidableEq, Repr

/-- Association-list lookup, mirroring `HashMap::get` / `Map::get`. -/
def lookupAssoc {α : Type} (k : String) : List (String × α) → Option α
  | [] => none
  | (k2, v) :: rest => if k2 = k then some v else lookupAssoc k rest

/-- `HashMap::contains_key`. -/
def containsKey {α : Type} (k : String) (l : List (String × α)) : Bool :=
  (lookupAssoc k l).isSome

/-- `Map::insert`: replace the value of an existing key in place, else
append at the end. -/
def insertAssoc {α : Type} (k : String) (v : α) : List (String × α) → List (String × α)
  | [] => [(k, v)]
  | (k2, w) :: rest =>
    if k2 = k then (k2, v) :: rest else (k2, w) :: insertAssoc k v rest

mutual

/-- Size measure for `Json` used to justify the recursion of the
marshaller (which descends into the values of an object through a
by-name lookup). -/
def jsize : Json → Nat
  | .null => 1
  | .bool _ => 1
  | .num _ => 1
  | .str _ => 1
  | .arr xs => 1 + jsizeL xs
  | .obj fs => 1 + jsizeO fs

/-- Size of a list of JSON values. -/
def jsizeL : List Json → Nat
  | [] => 0
  | x :: xs => 1 + jsize x + jsizeL xs

/-- Size of the field list of a JSON object. -/
def jsizeO : List (String × Json) → Nat
  | [] => 0
  | (_, v) :: fs => 1 + jsize v + jsizeO fs

end

end Wasmic

namespace Wasmic

theorem jsize_pos (j : Json) : 0 < jsize j := by
  cases j <;> simp [jsize]

theorem jsize_lt_of_mem {x : Json} {xs : List Json} (h : x ∈ xs) :
    jsize x < jsizeL xs := by
  induction xs with
  | nil => cases h
  | cons y ys ih =>
    rcases List.mem_cons.mp h with rfl | hmem
    · simp [jsizeL]; omega
    · have := ih hmem
      simp [jsizeL]; omega

theorem jsize_lookup {k : String} :
    ∀ {fs : List (String × Json)} {v : Json},
      lookupAssoc k fs = some v → jsize v < jsizeO fs := by
  intro fs
  induction fs with
  | nil => intro v h; simp [lookupAssoc] at h
  | cons p rest ih =>
    intro v h
    by_cases hk : p.1 = k
    · simp only [lookupAssoc, hk, if_pos] at h
      cases p
      cases h
      simp [jsizeO]; omega
    · cases p with
      | mk k2 w =>
        simp only [lookupAssoc] at h
        rw [if_neg hk] at h
        have := ih h
        simp [jsizeO]; omega

mutual

/-- Size measure for `WasmType`; only the record constructor is ever
descended into by the marshaller. -/
def wsize : WasmType → Nat
  | .record fs => 1 + wsizeF fs
  | _ => 1

/-- Size of a record type's field list. -/
def wsizeF : List (String × WasmType) → Nat
  | [] => 0
  | (_, t) :: fs => 1 + wsize t + wsizeF fs

end

/-- Size of the optional type argument of `toWasmWithType`. -/
def tsize : Option WasmType → Nat
  | none => 0
  | some t => wsize t

theorem wsize_lookup {k : String} :
    ∀ {fs : List (String × WasmType)} {t : WasmType},
      lookupAssoc k fs = some t → wsize t < wsizeF fs := by
  intro fs
  induction fs with
  | nil => intro t h; simp [lookupAssoc] at h
  | cons p rest ih =>
    intro t h
    cases p with
    | mk k2 w =>
      simp only [lookupAssoc] at h
      by_cases hk : k2 = k
      · rw [if_pos hk] at h
        cases h
        simp [wsizeF]; omega
      · rw [if_neg hk] at h
        have := ih h
        simp [wsizeF]; omega

/-- `serde_json::Number::as_i64`: defined exactly on the integer variants
representable as an `i64`. -/
def numAsI64 : JNum → Option Int
  | .int n => if -(2 ^ 63) ≤ n ∧ n ≤ 2 ^ 63 - 1 then some n else none
  | .float _ => none

/-- `serde_json::Number::as_u64`: defined exactly on the non-negative
integer variants representable as a `u64`. -/
def numAsU64 : JNum → Option Nat
  | .int n => if 0 ≤ n ∧ n ≤ 2 ^ 64 - 1 then some n.toNat else none
  | .float _ => none

/-- `serde_json::Number::as_f64`, which succeeds on every number.  The
rounding of a large integer to the nearest double is not modelled (see
the module comment); no claim below depends on it. -/
def numAsF64 : JNum → ℚ
  | .int n => (n : ℚ)
  | .float q => q

/-- `Value::as_i64`. -/
def jsonAsI64 : Json → Option Int
  | .num n => numAsI64 n
  | _ => none

/-- `Value::as_u64`. -/
def jsonAsU64 : Json → Option Nat
  | .num n => numAsU64 n
  | _ => none

/-- `Value::as_f64`. -/
def jsonAsF64 : Json → Option ℚ
  | .num n => some (numAsF64 n)
  | _ => none

/-- `Value::as_bool`. -/
def jsonAsBool : Json → Option Bool
  | .bool b => some b
  | _ => none

/-- `Value::as_str`. -/
def jsonAsStr : Json → Option String
  | .str s => some s
  | _ => none

/-- The untyped number conversion of `to_wasm_with_type`
(`src/utils/transform.rs` lines 150-171): an `i64` becomes `Val::S64`,
an out-of-`i64`-range `u64` becomes `Val::U64`, anything else falls back
to `Val::Float64`. -/
def untypedNum (n : JNum) : Except Err Val :=
  match numAsI64 n with
  | some i => .ok (.s64 i)
  | none =>
    match numAsU64 n with
    | some u => .ok (.u64 u)
    | none => .ok (.float64 (some (numAsF64 n)))

/-- The `Value::Number` branch of `to_wasm_with_type`
(`src/utils/transform.rs` lines 19-172): with type information the ten
numeric types are range-checked, every other type falls back to the
untyped conversion. -/
def toWasmNum (n : JNum) : Option WasmType → Except Err Val
  | some .u8 =>
    match numAsU64 n with
    | some u =>
      if u ≤ 255 then .ok (.u8 u)
      else .error (.invalidArguments ("Value " ++ toString u ++ " exceeds u8 range"))
    | none => .error (.invalidArguments "Expected unsigned integer for u8 type")
  | some .u16 =>
    match numAsU64 n with
    | some u =>
      if u ≤ 65535 then .ok (.u16 u)
      else .error (.invalidArguments ("Value " ++ toString u ++ " exceeds u16 range"))
    | none => .error (.invalidArguments "Expected unsigned integer for u16 type")
  | some .u32 =>
    match numAsU64 n with
    | some u =>
      if u ≤ 4294967295 then .ok (.u32 u)
      else .error (.invalidArguments ("Value " ++ toString u ++ " exceeds u32 range"))
    | none => .error (.invalidArguments "Expected unsigned integer for u32 type")
  | some .u64 =>
    match numAsU64 n with
    | some u => .ok (.u64 u)
    | none => .error (.invalidArguments "Expected unsigned integer for u64 type")
  | some .s8 =>
    match numAsI64 n with
    | some i =>
      if -128 ≤ i ∧ i ≤ 127 then .ok (.s8 i)
      else .error (.invalidArguments ("Value " ++ toString i ++ " exceeds s8 range"))
    | none => .error (.invalidArguments "Expected signed integer for s8 type")
  | some .s16 =>
    match numAsI64 n with
    | some i =>
      if -32768 ≤ i ∧ i ≤ 32767 then .ok (.s16 i)
      else .error (.invalidArguments ("Value " ++ toString i ++ " exceeds s16 range"))
    | none => .error (.invalidArguments "Expected signed integer for s16 type")
  | some .s32 =>
    match numAsI64 n with
    | some i =>
      if -2147483648 ≤ i ∧ i ≤ 2147483647 then .ok (.s32 i)
      else .error (.invalidArguments ("Value " ++ toString i ++ " exceeds s32 range"))
    | none => .error (.invalidArguments "Expected signed integer for s32 type")
  | some .s64 =>
    match numAsI64 n with
    | some i => .ok (.s64 i)
    | none => .error (.invalidArguments "Expected signed integer for s64 type")
  | some .float32 =>
    -- `f as f32`: binary32 rounding of the finite double is not modelled.
    .ok (.float32 (some (numAsF64 n)))
  | some .float64 => .ok (.float64 (some (numAsF64 n)))
  | some _ => untypedNum n
  | none => untypedNum n

mutual

/-- `to_wasm_with_type` (`src/utils/transform.rs` lines 12-225). -/
def toWasmWithType : Json → Option WasmType → Except Err Val
  | .null, _ => .ok (.str "null")
  | .bool b, _ => .ok (.bool b)
  | .num n, ot => toWasmNum n ot
  | .str s, _ => .ok (.str s)
  | .arr xs, _ =>
    match toWasmListU xs with
    | .ok vs => .ok (.list vs)
    | .error e => .error e
  | .obj fs, some (.record rts) =>
    -- typed record path: fields are marshalled in declared order, then
    -- fields absent from the declaration are rejected
    match toWasmRecordFields rts fs with
    | .error e => .error e
    | .ok fields =>
      match fs.find? (fun kv => !((rts.map Prod.fst).contains kv.1)) with
      | some kv => .error (.invalidArguments ("Unexpected field: " ++ kv.1))
      | none => .ok (.record fields)
  | .obj fs, _ =>
    match toWasmObjU fs with
    | .ok fields => .ok (.record fields)
    | .error e => .error e
termination_by j ot => jsize j + tsize ot
decreasing_by
  all_goals simp_wf
  all_goals simp [jsize, jsizeL, jsizeO, tsize, wsize, wsizeF]
  all_goals first
    | omega
    | { have hx := jsize_lookup h
        omega }

/-- Array elements are marshalled with NO type information
(`src/utils/transform.rs` lines 174-178). -/
def toWasmListU : List Json → Except Err (List Val)
  | [] => .ok []
  | x :: xs =>
    match toWasmWithType x none with
    | .error e => .error e
    | .ok v =>
      match toWasmListU xs with
      | .error e => .error e
      | .ok vs => .ok (v :: vs)
termination_by xs => jsizeL xs
decreasing_by
  all_goals simp_wf
  all_goals simp [jsize, jsizeL, jsizeO, tsize, wsize, wsizeF]
  all_goals first
    | omega
    | { have hx := jsize_lookup h
        omega }

/-- The field loop of the typed record path: each declared field is looked
up by name in the JSON object and marshalled with its declared type;
a missing field aborts. -/
def toWasmRecordFields :
    List (String × WasmType) → List (String × Json) → Except Err (List (String × Val))
  | [], _ => .ok []
  | (fname, fty) :: rest, fs =>
    match h : lookupAssoc fname fs with
    | some fv =>
      match toWasmWithType fv (some fty) with
      | .error e => .error e
      | .ok v =>
        match toWasmRecordFields rest fs with
        | .error e => .error e
        | .ok vs => .ok ((fname, v) :: vs)
    | none => .error (.invalidArguments ("Missing required field: " ++ fname))
termination_by rts fs => jsizeO fs + wsizeF rts
decreasing_by
  all_goals simp_wf
  all_goals simp [jsize, jsizeL, jsizeO, tsize, wsize, wsizeF]
  all_goals first
    | omega
    | { have hx := jsize_lookup h
        omega }

/-- The untyped object fallback: every field is marshalled with no type
information, in the object's own order. -/
def toWasmObjU : List (String × Json) → Except Err (List (String × Val))
  | [] => .ok []
  | (k, v) :: fs =>
    match toWasmWithType v none with
    | .error e => .error e
    | .ok w =>
      match toWasmObjU fs with
      | .error e => .error e
      | .ok ws => .ok ((k, w) :: ws)
termination_by fs => jsizeO fs
decreasing_by
  all_goals simp_wf
  all_goals simp [jsize, jsizeL, jsizeO, tsize, wsize, wsizeF]
  all_goals first
    | omega
    | { have hx := jsize_lookup h
        omega }

end

/-- `serde_json::Number::from_f64(f).unwrap_or(Number::from(0))`: a finite
double keeps its value, NaN and the infinities collapse to the number 0. -/
def numFromF64 : Option ℚ → JNum
  | some q => .float q
  | none => .int 0

mutual

/-- `wasm_to_json` (`src/utils/transform.rs` lines 228-308; the identical
`ValueTransformer::wasm_to_json` lives in `src/transform.rs`). -/
def wasmToJson : Val → Except Err Json
  | .bool b => .ok (.bool b)
  | .s8 n => .ok (.num (.int n))
  | .u8 n => .ok (.num (.int n))
  | .s16 n => .ok (.num (.int n))
  | .u16 n => .ok (.num (.int n))
  | .s32 n => .ok (.num (.int n))
  | .u32 n => .ok (.num (.int n))
  | .s64 n => .ok (.num (.int n))
  | .u64 n => .ok (.num (.int n))
  | .float32 q => .ok (.num (numFromF64 q))
  | .float64 q => .ok (.num (numFromF64 q))
  | .char c => .ok (.str (String.mk [c]))
  | .str s => .ok (.str s)
  | .list vs =>
    match wasmToJsonList vs with
    | .ok js => .ok (.arr js)
    | .error e => .error e
  | .record fs =>
    match wasmToJsonFieldsGo [] fs with
    | .ok ofs => .ok (.obj ofs)
    | .error e => .error e
  | .tuple vs =>
    match wasmToJsonList vs with
    | .ok js => .ok (.arr js)
    | .error e => .error e
  | .variant name payload =>
    match payload with
    | some v =>
      match wasmToJson v with
      | .ok jv => .ok (.obj [("variant", .str name), ("value", jv)])
      | .error e => .error e
    | none => .ok (.obj [("variant", .str name), ("value", .null)])
  | .enum name => .ok (.str name)
  | .option o =>
    match o with
    | some v => wasmToJson v
    | none => .ok .null
  | .result isOk payload =>
    match payload with
    | some v =>
      match wasmToJson v with
      | .ok jv =>
        .ok (.obj [("result", .str (if isOk then "ok" else "error")), ("value", jv)])
      | .error e => .error e
    | none =>
      .ok (.obj [("result", .str (if isOk then "ok" else "error")), ("value", .null)])
  | .flags names => .ok (.arr (names.map .str))
  | .resource => .ok (.str "[Resource]")
  | .future => .ok (.str "[Future]")
  | .stream => .ok (.str "[Stream]")
  | .errorContext => .ok (.str "[ErrorContext]")

/-- `iter().map(wasm_to_json).collect::<Result<Vec<_>>>()`. -/
def wasmToJsonList : List Val → Except Err (List Json)
  | [] => .ok []
  | v :: vs =>
    match wasmToJson v with
    | .error e => .error e
    | .ok j =>
      match wasmToJsonList vs with
      | .error e => .error e
      | .ok js => .ok (j :: js)

/-- The record loop of `wasm_to_json`: sequential `Map::insert` of each
demarshalled field into an (initially empty) object. -/
def wasmToJsonFieldsGo (acc : List (String × Json)) :
    List (String × Val) → Except Err (List (String × Json))
  | [] => .ok acc
  | (k, v) :: fs =>
    match wasmToJson v with
    | .error e => .error e
    | .ok jv => wasmToJsonFieldsGo (insertAssoc k jv acc) fs

end

/-- `convert_wasm_results_to_json` (`src/utils/transform.rs` lines
311-322). -/
def convertWasmResultsToJson (wasmResults : List Val) : Except Err Json :=
  match wasmResults with
  | [] => .ok (.str "Successfully executed (no return value)")
  | [v] => wasmToJson v
  | _ =>
    match wasmToJsonList wasmResults with
    | .ok js => .ok (.arr js)
    | .error e => .error e

mutual

/-- `serde_json`'s `Display` rendering of a value, used by
`convert_json_to_wasm_value` for opaque handle types.  String escaping and
the decimal rendering of floats are not modelled; no claim depends on this
rendering. -/
def jsonDisplay : Json → String
  | .null => "null"
  | .bool true => "true"
  | .bool false => "false"
  | .num (.int n) => toString n
  | .num (.float q) => toString q
  | .str s => "\"" ++ s ++ "\""
  | .arr xs => "[" ++ jsonDisplayList xs ++ "]"
  | .obj fs => "\x7b" ++ jsonDisplayObj fs ++ "\x7d"

/-- Comma-separated rendering of array elements. -/
def jsonDisplayList : List Json → String
  | [] => ""
  | [x] => jsonDisplay x
  | x :: xs => jsonDisplay x ++ "," ++ jsonDisplayList xs

/-- Comma-separated rendering of object fields. -/
def jsonDisplayObj : List (String × Json) → String
  | [] => ""
  | [(k, v)] => "\"" ++ k ++ "\":" ++ jsonDisplay v
  | (k, v) :: fs => "\"" ++ k ++ "\":" ++ jsonDisplay v ++ "," ++ jsonDisplayObj fs

end

/-- `convert_json_to_wasm_value` (`src/utils/transform.rs` lines 344-552;
the executor's private copy in `src/executor.rs` lines 222-431 is
identical, with the structural types delegated to `to_wasm_with_type`). -/
def convertJsonToWasmValue (jsonValue : Json) (wasmType : WasmType) : Except Err Val :=
  match wasmType with
  | .bool =>
    match jsonAsBool jsonValue with
    | some b => .ok (.bool b)
    | none => .error (.invalidArguments ("Expected boolean, got: " ++ jsonDisplay jsonValue))
  | .char | .string =>
    match jsonAsStr jsonValue with
    | some s => .ok (.str s)
    | none => .error (.unexpectedExpected "string" (jsonDisplay jsonValue))
  | .s8 =>
    match jsonAsI64 jsonValue with
    | some n =>
      if -128 ≤ n ∧ n ≤ 127 then .ok (.s8 n)
      else .error (.invalidArguments ("Expected s8 (-128-127), got: " ++ toString n))
    | none => .error (.invalidArguments ("Expected s8, got: " ++ jsonDisplay jsonValue))
  | .u8 =>
    match jsonAsU64 jsonValue with
    | some n =>
      if n ≤ 255 then .ok (.u8 n)
      else .error (.invalidArguments ("Expected u8 (0-255), got: " ++ toString n))
    | none => .error (.invalidArguments ("Expected u8, got: " ++ jsonDisplay jsonValue))
  | .s16 =>
    match jsonAsI64 jsonValue with
    | some n =>
      if -32768 ≤ n ∧ n ≤ 32767 then .ok (.s16 n)
      else .error (.invalidArguments ("Expected s16 (-32768-32767), got: " ++ toString n))
    | none => .error (.invalidArguments ("Expected s16, got: " ++ jsonDisplay jsonValue))
  | .u16 =>
    match jsonAsU64 jsonValue with
    | some n =>
      if n ≤ 65535 then .ok (.u16 n)
      else .error (.invalidArguments ("Expected u16 (0-65535), got: " ++ toString n))
    | none => .error (.invalidArguments ("Expected u16, got: " ++ jsonDisplay jsonValue))
  | .s32 =>
    match jsonAsI64 jsonValue with
    | some n =>
      if -2147483648 ≤ n ∧ n ≤ 2147483647 then .ok (.s32 n)
      else
        .error (.invalidArguments
          ("Expected s32 (-2147483648-2147483647), got: " ++ toString n))
    | none => .error (.invalidArguments ("Expected s32, got: " ++ jsonDisplay jsonValue))
  | .u32 =>
    match jsonAsU64 jsonValue with
    | some n =>
      if n ≤ 4294967295 then .ok (.u32 n)
      else .error (.invalidArguments ("Expected u32 (0-4294967295), got: " ++ toString n))
    | none => .error (.invalidArguments ("Expected u32, got: " ++ jsonDisplay jsonValue))
  | .s64 =>
    match jsonAsI64 jsonValue with
    | some n => .ok (.s64 n)
    | none => .error (.invalidArguments ("Expected s64, got: " ++ jsonDisplay jsonValue))
  | .u64 =>
    match jsonAsU64 jsonValue with
    | some n => .ok (.u64 n)
    | none => .error (.invalidArguments ("Expected u64, got: " ++ jsonDisplay jsonValue))
  | .float32 =>
    match jsonAsF64 jsonValue with
    | some q => .ok (.float32 (some q))
    | none => .error (.invalidArguments ("Expected f32, got: " ++ jsonDisplay jsonValue))
  | .float64 =>
    match jsonAsF64 jsonValue with
    | some q => .ok (.float64 (some q))
    | none => .error (.invalidArguments ("Expected f64, got: " ++ jsonDisplay jsonValue))
  | .record _ => toWasmWithType jsonValue (some wasmType)
  | .list _ => toWasmWithType jsonValue (some wasmType)
  | .tuple _ => toWasmWithType jsonValue (some wasmType)
  | .variant _ => toWasmWithType jsonValue (some wasmType)
  | .enum _ => toWasmWithType jsonValue (some wasmType)
  | .option _ => toWasmWithType jsonValue (some wasmType)
  | .result _ _ => toWasmWithType jsonValue (some wasmType)
  | .flags _ => toWasmWithType jsonValue (some wasmType)
  | .own | .borrow | .future _ | .stream _ | .errorContext =>
    .ok (.str (jsonDisplay jsonValue))

mutual

/-- `convert_wasm_type_to_json` (`src/wasm.rs` lines 44-223; an identical
copy lives in `src/utils/wasm.rs`).  JSON-Schema fragments are built as
objects whose fields appear in the order of the Rust `json!` literal. -/
def convertWasmTypeToJson : WasmType → Json
  | .bool => .str "boolean"
  | .char | .string => .str "string"
  | .s8 | .u8 | .s16 | .u16 | .s32 | .u32 | .s64 | .u64 => .str "integer"
  | .float32 | .float64 => .str "number"
  | .list t =>
    .obj [("type", .str "array"), ("items", convertWasmTypeToJson t)]
  | .record fields =>
    .obj
      [("type", .str "object"),
       ("properties", .obj (schemaFields fields)),
       ("required", .arr (fields.map fun f => .str f.1)),
       ("additionalProperties", .bool false)]
  | .tuple ts =>
    .obj
      [("type", .str "array"),
       ("items", .arr (schemaList ts)),
       ("minItems", .num (.int ts.length)),
       ("maxItems", .num (.int ts.length))]
  | .variant cases => .obj [("oneOf", .arr (schemaCases cases))]
  | .enum names =>
    .obj [("type", .str "string"), ("enum", .arr (names.map .str))]
  | .option t =>
    .obj [("oneOf", .arr [convertWasmTypeToJson t, .obj [("type", .str "null")]])]
  | .result ok err =>
    match ok, err with
    | some o, some e =>
      .obj
        [("oneOf",
          .arr
            [.obj
              [("type", .str "object"),
               ("properties", .obj [("Ok", convertWasmTypeToJson o)]),
               ("required", .arr [.str "Ok"])],
             .obj
              [("type", .str "object"),
               ("properties", .obj [("Err", convertWasmTypeToJson e)]),
               ("required", .arr [.str "Err"])]])]
    | some o, none =>
      .obj
        [("oneOf",
          .arr
            [.obj
              [("type", .str "object"),
               ("properties", .obj [("Ok", convertWasmTypeToJson o)]),
               ("required", .arr [.str "Ok"])],
             .obj [("type", .str "null")]])]
    | none, some e =>
      .obj
        [("oneOf",
          .arr
            [.obj [("type", .str "null")],
             .obj
              [("type", .str "object"),
               ("properties", .obj [("Err", convertWasmTypeToJson e)]),
               ("required", .arr [.str "Err"])]])]
    | none, none =>
      .obj
        [("oneOf", .arr [.obj [("type", .str "null")], .obj [("type", .str "string")]])]
  | .flags names =>
    .obj
      [("type", .str "array"),
       ("items", .obj [("type", .str "string"), ("enum", .arr (names.map .str))]),
       ("uniqueItems", .bool true)]
  | .own | .borrow => .str "string"
  | .future t =>
    match t with
    | some ty =>
      .obj
        [("type", .str "object"),
         ("properties",
          .obj
            [("pending", .obj [("type", .str "boolean")]),
             ("value", convertWasmTypeToJson ty)])]
    | none =>
      .obj
        [("type", .str "object"),
         ("properties", .obj [("pending", .obj [("type", .str "boolean")])])]
  | .stream t =>
    match t with
    | some ty => .obj [("type", .str "array"), ("items", convertWasmTypeToJson ty)]
    | none => .obj [("type", .str "array"), ("items", .obj [("type", .str "string")])]
  | .errorContext => .str "string"

/-- The `properties` map of a record schema, in field declaration order. -/
def schemaFields : List (String × WasmType) → List (String × Json)
  | [] => []
  | (n, t) :: fs => (n, convertWasmTypeToJson t) :: schemaFields fs

/-- The `items` array of a tuple schema. -/
def schemaList : List WasmType → List Json
  | [] => []
  | t :: ts => convertWasmTypeToJson t :: schemaList ts

/-- The `oneOf` cases of a variant schema. -/
def schemaCases : List (String × Option WasmType) → List Json
  | [] => []
  | (name, some ty) :: cs =>
    .obj
      [("type", .str "object"),
       ("properties", .obj [(name, convertWasmTypeToJson ty)]),
       ("required", .arr [.str name]),
       ("additionalProperties", .bool false)] :: schemaCases cs
  | (name, none) :: cs => .obj [("const", .str name)] :: schemaCases cs

end

/-- Field access on a JSON object (`Map::get` on a schema object). -/
def objLookup (k : String) : Json → Option Json
  | .obj fs => lookupAssoc k fs
  | _ => none

/-- `ParameterInfo` (`src/wasm.rs` lines 27-33). -/
structure ParameterInfo where
  name : String
  paramJson : Json
  wasmType : WasmType
  position : Nat
deriving Repr

/-- `FunctionInfo` (`src/wasm.rs` lines 35-41): `results` holds the JSON
schemas of the declared result types. -/
structure FunctionInfo where
  name : String
  params : List ParameterInfo
  results : List Json
deriving Repr

/-- `InterfaceInfo` (`src/wasm.rs` lines 18-24); the function `HashMap`
is an association list. -/
structure InterfaceInfo where
  name : String
  fullName : String
  functions : List (String × FunctionInfo)
deriving Repr

/-- `ComponentExports` (`src/wasm.rs` lines 11-16). -/
structure ComponentExports where
  functions : List FunctionInfo
  interfaces : List InterfaceInfo
deriving Repr

/-- `wasmtime::component::types::ComponentItem`, as much of it as
`get_exports` inspects. -/
inductive ComponentItem where
  | componentFunc (params : List (String × WasmType)) (results : List WasmType)
  | coreFunc
  | componentInstance (exports : List (String × ComponentItem))
  | component (exports : List (String × ComponentItem))
  | module
  | typeItem
  | resource
deriving Repr

/-- Rust's `str::split('/')`: splits on every occurrence, keeping empty
segments, and yields one (possibly empty) segment for the empty string. -/
def splitChar (cs : List Char) (c : Char) : List (List Char) :=
  match cs with
  | [] => [[]]
  | x :: xs =>
    match splitChar xs c with
    | h :: t => if x = c then [] :: h :: t else (x :: h) :: t
    | [] => [[x]]

/-- `path.split('/').collect::<Vec<_>>().last().copied().unwrap_or(path)`
(`src/wasm.rs` lines 287-288). -/
def lastSegment (path : String) : String :=
  match (splitChar path.toList '/').getLast? with
  | some cs => String.mk cs
  | none => path

/-- The parameter list built for a discovered function: positions are the
0-based enumeration order and each schema comes from the type
translator (`src/wasm.rs` lines 237-250). -/
def mkParamInfos (params : List (String × WasmType)) : List ParameterInfo :=
  params.enum.map fun p =>
    ⟨p.2.1, convertWasmTypeToJson p.2.2, p.2.2, p.1⟩

mutual

/-- `get_exports` (`src/wasm.rs` lines 226-322). -/
def getExports (path : String) (item : ComponentItem) : ComponentExports :=
  match item with
  | .componentFunc params results =>
    ⟨[⟨path, mkParamInfos params, results.map convertWasmTypeToJson⟩], []⟩
  | .coreFunc => ⟨[], []⟩
  | .componentInstance exports =>
    let st := getExportsInstLoop path [] [] exports
    if st.1.isEmpty then ⟨[], st.2⟩
    else ⟨[], st.2 ++ [⟨lastSegment path, path, st.1⟩]⟩
  | .component exports => getExportsCompLoop path exports
  | .module => ⟨[], []⟩
  | .typeItem => ⟨[], []⟩
  | .resource => ⟨[], []⟩

/-- The loop over an instance's named exports: accumulates the interface
function map (keyed by the recursive result's `FunctionInfo.name`, an
already qualified path, while the stored info's name is rewritten to
`path.name`) and collects nested interfaces in traversal order. -/
def getExportsInstLoop (path : String)
    (ifns : List (String × FunctionInfo)) (ifaces : List InterfaceInfo) :
    List (String × ComponentItem) →
      List (String × FunctionInfo) × List InterfaceInfo
  | [] => (ifns, ifaces)
  | (name, nested) :: rest =>
    let nestedResult := getExports (path ++ "." ++ name) nested
    let ifns2 :=
      nestedResult.functions.foldl
        (fun m func =>
          insertAssoc func.name ⟨path ++ "." ++ name, func.params, func.results⟩ m)
        ifns
    getExportsInstLoop path ifns2 (ifaces ++ nestedResult.interfaces) rest

/-- The loop over a nested component's exports: functions and interfaces
are merged into the parent result. -/
def getExportsCompLoop (path : String) :
    List (String × ComponentItem) → ComponentExports
  | [] => ⟨[], []⟩
  | (name, nested) :: rest =>
    let nestedResult := getExports (path ++ "." ++ name) nested
    let st := getExportsCompLoop path rest
    ⟨nestedResult.functions ++ st.functions, nestedResult.interfaces ++ st.interfaces⟩

end

/-- An export of an instantiated component as seen by the resolver: a
callable function (identified by an opaque handle), a nested instance
with its own named exports, or some other export kind. -/
inductive ExportNode where
  | funcNode (handle : Nat)
  | instNode (exports : List (String × ExportNode))
  | otherNode
deriving Repr

/-- An instantiated component: its top-level named exports. -/
structure WInstance where
  exports : List (String × ExportNode)
deriving Repr

/-- `instance.get_export_index(store, None, name)`. -/
def getExportIndexTop (inst : WInstance) (name : String) : Option ExportNode :=
  lookupAssoc name inst.exports

/-- `instance.get_export_index(store, Some(&parent), name)`: resolves a
name inside a previously resolved export (only instances have nested
exports). -/
def getExportIndexIn (parent : ExportNode) (name : String) : Option ExportNode :=
  match parent with
  | .instNode exports => lookupAssoc name exports
  | _ => none

/-- `instance.get_func(idx)`: succeeds exactly on function exports. -/
def getFunc (node : ExportNode) : Option Nat :=
  match node with
  | .funcNode h => some h
  | _ => none

/-- Rust's `str::contains(char)`. -/
def containsChar (cs : List Char) (c : Char) : Bool :=
  cs.contains c

/-- Rust's `str::rsplit_once(char)`: splits at the LAST occurrence of the
character, returning the parts before and after it. -/
def rsplitOnceList (cs : List Char) (c : Char) : Option (List Char × List Char) :=
  match cs with
  | [] => none
  | x :: xs =>
    match rsplitOnceList xs c with
    | some (pre, post) => some (x :: pre, post)
    | none => if x = c then some ([], xs) else none

/-- `rsplit_once` on strings. -/
def rsplitOnce (s : String) (c : Char) : Option (String × String) :=
  match rsplitOnceList s.toList c with
  | some (pre, post) => some (String.mk pre, String.mk post)
  | none => none

/-- `get_function_from_instance` (`src/executor.rs` lines 153-197). -/
def getFunctionFromInstance (inst : WInstance) (functionName : String) :
    Except Err Nat :=
  let isStandalone := !containsChar functionName.toList '.'
  if isStandalone then
    match getExportIndexTop inst functionName with
    | none => .error (.functionNotFound functionName)
    | some node =>
      match getFunc node with
      | some h => .ok h
      | none => .error (.execution "Failed to get function reference")
  else
    match rsplitOnce functionName '.' with
    | none => .error (.execution ("Invalid function name format: " ++ functionName))
    | some (interface, function) =>
      match getExportIndexTop inst interface with
      | none => .error (.interfaceNotFound interface)
      | some interfaceNode =>
        match getExportIndexIn interfaceNode function with
        | none => .error (.functionNotFound (interface ++ "." ++ function))
        | some funcItem =>
          match getFunc funcItem with
          | some h => .ok h
          | none => .error (.execution "Failed to get function reference")

/-- `map_named_to_positional_arguments` (`src/executor.rs` lines 78-124).
The named-argument `HashMap` is an association list; its iteration order
stands in for the hash map's arbitrary order (no claim depends on which
offending key is reported first). -/
def mapNamedToPositionalArguments (functionInfo : FunctionInfo)
    (namedArgs : List (String × Json)) : Except Err (List Json) :=
  let paramPositions : List (String × Nat) :=
    functionInfo.params.foldl (fun acc p => insertAssoc p.name p.position acc) []
  match functionInfo.params.find? (fun p => !containsKey p.name namedArgs) with
  | some p =>
    .error (.invalidArguments
      ("Missing required argument: " ++ p.name ++ " (position: " ++ toString p.position ++ ")"))
  | none =>
    match namedArgs.find? (fun kv => !containsKey kv.1 paramPositions) with
    | some kv => .error (.invalidArguments ("Unexpected argument: " ++ kv.1))
    | none =>
      .ok
        (namedArgs.foldl
          (fun acc kv =>
            match lookupAssoc kv.1 paramPositions with
            | some pos => if pos < acc.length then acc.set pos kv.2 else acc
            | none => acc)
          (List.replicate functionInfo.params.length Json.null))

mutual

/-- `serde_json::Value`'s `PartialEq`: structural on scalars and arrays,
order-insensitive (same size, every key maps to an equal value) on
objects, exactly as the maps underlying `serde_json::Map` compare. -/
def jsonEq : Json → Json → Bool
  | .null, .null => true
  | .bool a, .bool b => a == b
  | .num a, .num b => decide (a = b)
  | .str a, .str b => a == b
  | .arr xs, .arr ys => jsonEqList xs ys
  | .obj xs, .obj ys => (xs.length == ys.length) && jsonEqObj xs ys
  | _, _ => false
termination_by a b => jsize a
decreasing_by
  all_goals simp_wf
  all_goals simp [jsize, jsizeL, jsizeO]
  all_goals omega

/-- Pointwise array equality. -/
def jsonEqList : List Json → List Json → Bool
  | [], [] => true
  | x :: xs, y :: ys => jsonEq x y && jsonEqList xs ys
  | _, _ => false
termination_by xs ys => jsizeL xs
decreasing_by
  all_goals simp_wf
  all_goals simp [jsize, jsizeL, jsizeO]
  all_goals omega

/-- Each field of the first object must map, by key, to an equal value in
the second. -/
def jsonEqObj : List (String × Json) → List (String × Json) → Bool
  | [], _ => true
  | (k, v) :: rest, ys =>
    (match lookupAssoc k ys with
     | some w => jsonEq v w
     | none => false)
      && jsonEqObj rest ys
termination_by xs ys => jsizeO xs
decreasing_by
  all_goals simp_wf
  all_goals simp [jsize, jsizeL, jsizeO]
  all_goals omega

end

mutual

/-- The fragment of JSON values on which the untyped marshalling is
invertible: everything except `null`, integers beyond serde's
representable range, and objects with duplicate keys. -/
def goodU : Json → Bool
  | .null => false
  | .bool _ => true
  | .str _ => true
  | .num (.int n) => decide (-(2 ^ 63) ≤ n ∧ n ≤ 2 ^ 64 - 1)
  | .num (.float _) => true
  | .arr xs => goodUList xs
  | .obj fs => decide ((fs.map Prod.fst).Nodup) && goodUObj fs

/-- All elements untyped-round-trippable. -/
def goodUList : List Json → Bool
  | [] => true
  | x :: xs => goodU x && goodUList xs

/-- All field values untyped-round-trippable. -/
def goodUObj : List (String × Json) → Bool
  | [] => true
  | (_, v) :: fs => goodU v && goodUObj fs

end

/-- The numbers that round-trip through `toWasmNum` at a given target
type: integers in range for the integer types, finite floats for `f64`,
serde-representable values for the untyped fallback.  `f32` is excluded
(binary32 rounding), as is an integer against a float type (it comes back
as a float number). -/
def goodTNum (t : WasmType) (m : JNum) : Bool :=
  match m, t with
  | .int n, .u8 => decide (0 ≤ n ∧ n ≤ 255)
  | .int n, .u16 => decide (0 ≤ n ∧ n ≤ 65535)
  | .int n, .u32 => decide (0 ≤ n ∧ n ≤ 4294967295)
  | .int n, .u64 => decide (0 ≤ n ∧ n ≤ 2 ^ 64 - 1)
  | .int n, .s8 => decide (-128 ≤ n ∧ n ≤ 127)
  | .int n, .s16 => decide (-32768 ≤ n ∧ n ≤ 32767)
  | .int n, .s32 => decide (-2147483648 ≤ n ∧ n ≤ 2147483647)
  | .int n, .s64 => decide (-(2 ^ 63) ≤ n ∧ n ≤ 2 ^ 63 - 1)
  | .int _, .float32 => false
  | .int _, .float64 => false
  | .int n, _ => decide (-(2 ^ 63) ≤ n ∧ n ≤ 2 ^ 64 - 1)
  | .float _, .float64 => true
  | .float _, .float32 => false
  | .float _, .u8 | .float _, .u16 | .float _, .u32 | .float _, .u64 => false
  | .float _, .s8 | .float _, .s16 | .float _, .s32 | .float _, .s64 => false
  | .float _, _ => true

mutual

/-- The fragment of (type, JSON value) pairs on which
`wasm_to_json ∘ to_wasm_with_type` is the identity: booleans and strings
(any type), numbers per `goodTNum`, arrays of untyped-round-trippable
elements, objects matching a record type field-for-field, and untyped
objects.  `null` is excluded: the marshaller turns it into the string
"null". -/
def goodT (t : WasmType) : Json → Bool
  | .null => false
  | .bool _ => true
  | .str _ => true
  | .num m => goodTNum t m
  | .arr xs => goodUList xs
  | .obj fs =>
    match t with
    | .record rts =>
      decide ((rts.map Prod.fst).Nodup) && decide ((fs.map Prod.fst).Nodup)
        && (fs.length == rts.length)
        && rts.all (fun p => containsKey p.1 fs)
        && fs.all (fun kv => (rts.map Prod.fst).contains kv.1)
        && goodTFields rts fs
    | _ => decide ((fs.map Prod.fst).Nodup) && goodUObj fs
termination_by j => jsize j + tsize (some t)
decreasing_by
  all_goals simp_wf
  all_goals simp [jsize, jsizeL, jsizeO, tsize, wsize, wsizeF]
  all_goals first
    | omega
    | { have hx := jsize_lookup (by assumption)
        omega }

/-- Every declared record field is present and round-trippable at its
declared type. -/
def goodTFields : List (String × WasmType) → List (String × Json) → Bool
  | [], _ => true
  | (n, t) :: rest, fs =>
    (match h : lookupAssoc n fs with
     | some v => goodT t v
     | none => false)
      && goodTFields rest fs
termination_by rts fs => jsizeO fs + wsizeF rts
decreasing_by
  all_goals simp_wf
  all_goals simp [jsize, jsizeL, jsizeO, tsize, wsize, wsizeF]
  all_goals first
    | omega
    | { have hx := jsize_lookup h
        omega }

end

mutual

/-- Size measure for `Val`, used for induction over the demarshaller. -/
def vsizeV : Val → Nat
  | .list vs => 1 + vsizeL vs
  | .record fs => 1 + vsizeO fs
  | .tuple vs => 1 + vsizeL vs
  | .variant _ p => 1 + vsizeP p
  | .option o => 1 + vsizeP o
  | .result _ p => 1 + vsizeP p
  | _ => 1

/-- Size of an optional payload. -/
def vsizeP : Option Val → Nat
  | none => 0
  | some v => 1 + vsizeV v

/-- Size of a list of values. -/
def vsizeL : List Val → Nat
  | [] => 0
  | v :: vs => 1 + vsizeV v + vsizeL vs

/-- Size of a record value's field list. -/
def vsizeO : List (String × Val) → Nat
  | [] => 0
  | (_, v) :: fs => 1 + vsizeV v + vsizeO fs

end

/-! ### Helper lemmas -/

theorem wasmToJson_total_aux : ∀ N : Nat,
    (∀ v, vsizeV v ≤ N → ∃ j, wasmToJson v = .ok j) ∧
    (∀ vs, vsizeL vs ≤ N → ∃ js, wasmToJsonList vs = .ok js) ∧
    (∀ fs, vsizeO fs ≤ N → ∀ acc, ∃ o, wasmToJsonFieldsGo acc fs = .ok o) := by
  intro N
  induction N using Nat.strong_induction_on with
  | _ N IH =>
    refine ⟨?_, ?_, ?_⟩
    · intro v hv
      cases v <;> try (simp only [wasmToJson]; exact ⟨_, rfl⟩)
      case list vs =>
        have hlt : vsizeL vs < N := by simp [vsizeV] at hv; omega
        obtain ⟨js, hjs⟩ := (IH (vsizeL vs) hlt).2.1 vs le_rfl
        simp only [wasmToJson, hjs]
        exact ⟨_, rfl⟩
      case record fs =>
        have hlt : vsizeO fs < N := by simp [vsizeV] at hv; omega
        obtain ⟨o, ho⟩ := (IH (vsizeO fs) hlt).2.2 fs le_rfl []
        simp only [wasmToJson, ho]
        exact ⟨_, rfl⟩
      case tuple vs =>
        have hlt : vsizeL vs < N := by simp [vsizeV] at hv; omega
        obtain ⟨js, hjs⟩ := (IH (vsizeL vs) hlt).2.1 vs le_rfl
        simp only [wasmToJson, hjs]
        exact ⟨_, rfl⟩
      case variant name p =>
        cases p with
        | none => simp only [wasmToJson]; exact ⟨_, rfl⟩
        | some v =>
          have hlt : vsizeV v < N := by simp [vsizeV, vsizeP] at hv; omega
          obtain ⟨j, hj⟩ := (IH (vsizeV v) hlt).1 v le_rfl
          simp only [wasmToJson, hj]
          exact ⟨_, rfl⟩
      case option o =>
        cases o with
        | none => simp only [wasmToJson]; exact ⟨_, rfl⟩
        | some v =>
          have hlt : vsizeV v < N := by simp [vsizeV, vsizeP] at hv; omega
          obtain ⟨j, hj⟩ := (IH (vsizeV v) hlt).1 v le_rfl
          simp only [wasmToJson]
          exact ⟨j, hj⟩
      case result b p =>
        cases p with
        | none => simp only [wasmToJson]; exact ⟨_, rfl⟩
        | some v =>
          have hlt : vsizeV v < N := by simp [vsizeV, vsizeP] at hv; omega
          obtain ⟨j, hj⟩ := (IH (vsizeV v) hlt).1 v le_rfl
          simp only [wasmToJson, hj]
          exact ⟨_, rfl⟩
    · intro vs hvs
      cases vs with
      | nil => simp only [wasmToJsonList]; exact ⟨_, rfl⟩
      | cons v rest =>
        have h1 : vsizeV v < N := by simp [vsizeL] at hvs; omega
        have h2 : vsizeL rest < N := by simp [vsizeL] at hvs; omega
        obtain ⟨j, hj⟩ := (IH _ h1).1 v le_rfl
        obtain ⟨js, hjs⟩ := (IH _ h2).2.1 rest le_rfl
        simp only [wasmToJsonList, hj, hjs]
        exact ⟨_, rfl⟩
    · intro fs hfs acc
      cases fs with
      | nil => simp only [wasmToJsonFieldsGo]; exact ⟨_, rfl⟩
      | cons kv rest =>
        obtain ⟨k, v⟩ := kv
        have h1 : vsizeV v < N := by simp [vsizeO] at hfs; omega
        have h2 : vsizeO rest < N := by simp [vsizeO] at hfs; omega
        obtain ⟨j, hj⟩ := (IH _ h1).1 v le_rfl
        obtain ⟨o, ho⟩ := (IH _ h2).2.2 rest le_rfl (insertAssoc k j acc)
        simp only [wasmToJsonFieldsGo, hj]
        exact ⟨o, ho⟩

theorem wasmToJson_total (v : Val) : ∃ j, wasmToJson v = .ok j :=
  (wasmToJson_total_aux (vsizeV v)).1 v le_rfl

theorem wasmToJsonList_total (vs : List Val) : ∃ js, wasmToJsonList vs = .ok js :=
  (wasmToJson_total_aux (vsizeL vs)).2.1 vs le_rfl

theorem wasmToJsonList_forall2 :
    ∀ {vs : List Val} {js : List Json}, wasmToJsonList vs = .ok js →
      List.Forall₂ (fun v j => wasmToJson v = .ok j) vs js := by
  intro vs
  induction vs with
  | nil =>
    intro js h
    simp [wasmToJsonList] at h
    cases h
    exact List.Forall₂.nil
  | cons v rest ih =>
    intro js h
    simp only [wasmToJsonList] at h
    cases hv : wasmToJson v with
    | error e => rw [hv] at h; simp at h
    | ok j =>
      rw [hv] at h
      cases hrest : wasmToJsonList rest with
      | error e => rw [hrest] at h; simp at h
      | ok js2 =>
        rw [hrest] at h
        simp at h
        cases h
        exact List.Forall₂.cons hv (ih hrest)

/-! ### Claim C10 and C4 -/

/-- C10: demarshalling is total — `wasm_to_json` returns `Ok` on every
component value, its error branch being unreachable; a float with no
exact JSON representation (NaN or an infinity) is emitted as the JSON
number 0, and resource handles, futures, streams and error-contexts
become the sentinel strings "[Resource]", "[Future]", "[Stream]" and
"[ErrorContext]". -/
theorem c10_demarshal_total :
    (∀ v : Val, ∃ j, wasmToJson v = .ok j)
      ∧ wasmToJson (.float32 none) = .ok (.num (.int 0))
      ∧ wasmToJson (.float64 none) = .ok (.num (.int 0))
      ∧ wasmToJson .resource = .ok (.str "[Resource]")
      ∧ wasmToJson .future = .ok (.str "[Future]")
      ∧ wasmToJson .stream = .ok (.str "[Stream]")
      ∧ wasmToJson .errorContext = .ok (.str "[ErrorContext]") := by
  refine ⟨wasmToJson_total, ?_, ?_, ?_, ?_, ?_, ?_⟩ <;>
    simp [wasmToJson, numFromF64]

/-- C4: aggregation of a call's result buffer — zero declared results
produce the literal string "Successfully executed (no return value)",
one result is demarshalled on its own, and two or more results become a
JSON array of the demarshalled values in declaration order. -/
theorem c4_result_aggregation (rs : List Val) :
    (rs = [] →
        convertWasmResultsToJson rs =
          .ok (.str "Successfully executed (no return value)"))
      ∧ (∀ v, rs = [v] → convertWasmResultsToJson rs = wasmToJson v)
      ∧ (2 ≤ rs.length →
          ∃ js, convertWasmResultsToJson rs = .ok (.arr js)
            ∧ List.Forall₂ (fun v j => wasmToJson v = .ok j) rs js) := by
  refine ⟨?_, ?_, ?_⟩
  · rintro rfl
    rfl
  · rintro v rfl
    rfl
  · intro hlen
    match rs, hlen with
    | v1 :: v2 :: rest, _ =>
      obtain ⟨js, hjs⟩ := wasmToJsonList_total (v1 :: v2 :: rest)
      refine ⟨js, ?_, wasmToJsonList_forall2 hjs⟩
      simp only [convertWasmResultsToJson, hjs]

/-- Witness for C4 at a concrete two-result buffer. -/
theorem c4_result_aggregation_witness :
    2 ≤ ([Val.u32 1, Val.bool true] : List Val).length
      ∧ (∃ js, convertWasmResultsToJson [Val.u32 1, Val.bool true] = .ok (.arr js)
          ∧ List.Forall₂ (fun v j => wasmToJson v = .ok j) [Val.u32 1, Val.bool true] js) :=
  ⟨by decide, (c4_result_aggregation [Val.u32 1, Val.bool true]).2.2 (by decide)⟩

/-! ### Claims C5, C6 (code bugs), C7 -/

/-- C5 (code bug): marshalling JSON `null` against `option<s32>` does NOT
produce the `None` option value — `to_wasm_with_type` (to which
`convert_json_to_wasm_value` delegates all option types) maps `null` to
the string value `"null"` before ever consulting the type, and a non-null
value such as 42 is converted by the untyped fallback to a bare `S64`
rather than wrapped in `Some`. -/
theorem c5_option_marshalling_bug :
    convertJsonToWasmValue Json.null (WasmType.option .s32) = .ok (.str "null")
      ∧ toWasmWithType Json.null (some (WasmType.option .s32)) = .ok (.str "null")
      ∧ convertJsonToWasmValue (.num (.int 42)) (WasmType.option .s32) = .ok (.s64 42)
      ∧ Val.str "null" ≠ Val.option none
      ∧ Val.s64 42 ≠ Val.option (some (.s32 42)) := by
  refine ⟨?_, ?_, ?_, ?_, ?_⟩
  · simp [convertJsonToWasmValue, toWasmWithType]
  · simp [toWasmWithType]
  · simp [convertJsonToWasmValue, toWasmWithType, toWasmNum, untypedNum, numAsI64]
  · simp
  · simp

/-- C6 (code bug): marshalling against `list<u8>` neither requires a JSON
array nor marshals elements at the element type — array elements are
converted untyped (so the out-of-range element 300 becomes `S64 300`
instead of being rejected), and non-array values such as `true` or `null`
are accepted by the type-oblivious fallbacks. -/
theorem c6_list_marshalling_bug :
    convertJsonToWasmValue (.arr [.num (.int 300)]) (.list .u8)
        = .ok (.list [.s64 300])
      ∧ convertJsonToWasmValue (.bool true) (.list .u8) = .ok (.bool true)
      ∧ convertJsonToWasmValue Json.null (.list .u8) = .ok (.str "null") := by
  refine ⟨?_, ?_, ?_⟩
  · simp [convertJsonToWasmValue, toWasmWithType, toWasmListU, toWasmNum,
      untypedNum, numAsI64]
  · simp [convertJsonToWasmValue, toWasmWithType]
  · simp [convertJsonToWasmValue, toWasmWithType]

/-- C7 counterexample: for an instance at path "iface" exporting a
function under local name "f", the interface's function map is keyed by
the fully qualified "iface.f", not by the unqualified "f" the claim
states — a lookup of "f" misses. -/
theorem c7_interface_key_counterexample :
    (getExports "iface" (.componentInstance [("f", .componentFunc [] [])])).interfaces
        = [⟨"iface", "iface", [("iface.f", ⟨"iface.f", [], []⟩)]⟩]
      ∧ lookupAssoc "f" [("iface.f", (⟨"iface.f", [], []⟩ : FunctionInfo))] = none
      ∧ ("iface.f" : String) ≠ "f" := by
  refine ⟨?_, ?_, ?_⟩
  · rfl
  · rfl
  · decide

/-- C7 amended: for an instance at path `p` exporting a function with
local name `n`, both the key of the interface's function map and the
stored `FunctionInfo`'s name are the fully qualified `p.n` (the recursive
walk has already qualified the discovered function's name, and the
insertion reuses it as the key). -/
theorem c7_interface_key_amended (p n : String) (ps : List (String × WasmType))
    (rs : List WasmType) :
    (getExports p (.componentInstance [(n, .componentFunc ps rs)])).functions = []
      ∧ (getExports p (.componentInstance [(n, .componentFunc ps rs)])).interfaces
          = [⟨lastSegment p, p,
              [(p ++ "." ++ n,
                ⟨p ++ "." ++ n, mkParamInfos ps, rs.map convertWasmTypeToJson⟩)]⟩] := by
  constructor
  · rfl
  · rfl

/-! ### Claim C9 -/

theorem lookupAssoc_mem {α : Type} :
    ∀ {ys : List (String × α)} {k : String} {v : α},
      lookupAssoc k ys = some v → (k, v) ∈ ys := by
  intro ys
  induction ys with
  | nil => intro k v h; simp [lookupAssoc] at h
  | cons p rest ih =>
    intro k v h
    cases p with
    | mk k2 w =>
      simp only [lookupAssoc] at h
      by_cases hk : k2 = k
      · rw [if_pos hk] at h
        cases h
        subst hk
        exact List.mem_cons_self _ _
      · rw [if_neg hk] at h
        exact List.mem_cons_of_mem _ (ih h)

theorem lookupAssoc_mem_nodup {α : Type} :
    ∀ {ys : List (String × α)}, (ys.map Prod.fst).Nodup →
      ∀ {k : String} {v : α}, (k, v) ∈ ys → lookupAssoc k ys = some v := by
  intro ys
  induction ys with
  | nil => intro _ k v h; cases h
  | cons p rest ih =>
    intro hnd k v h
    cases p with
    | mk k2 w =>
      simp only [List.map_cons, List.nodup_cons] at hnd
      rcases List.mem_cons.mp h with heq | hmem
      · cases heq
        simp [lookupAssoc]
      · have hk : k2 ≠ k := by
          intro hkk
          subst hkk
          exact hnd.1 (List.mem_map.mpr ⟨(k2, v), hmem, rfl⟩)
        simp only [lookupAssoc, if_neg hk]
        exact ih hnd.2 hmem

theorem schemaFields_eq_map (fs : List (String × WasmType)) :
    schemaFields fs = fs.map fun p => (p.1, convertWasmTypeToJson p.2) := by
  induction fs with
  | nil => rfl
  | cons p rest ih => cases p; simp [schemaFields, ih]

/-- C9: the schema translator maps a record type to an object schema whose
`properties` bind each field name to the translation of its type, whose
`required` list is exactly the field names in declaration order, and whose
`additionalProperties` is `false`. -/
theorem c9_record_schema (fs : List (String × WasmType))
    (h : (fs.map Prod.fst).Nodup) :
    ∃ props : List (String × Json),
      objLookup "type" (convertWasmTypeToJson (.record fs)) = some (.str "object")
        ∧ objLookup "additionalProperties" (convertWasmTypeToJson (.record fs))
            = some (.bool false)
        ∧ objLookup "required" (convertWasmTypeToJson (.record fs))
            = some (.arr (fs.map fun p => .str p.1))
        ∧ objLookup "properties" (convertWasmTypeToJson (.record fs)) = some (.obj props)
        ∧ props.length = fs.length
        ∧ ∀ p ∈ fs, lookupAssoc p.1 props = some (convertWasmTypeToJson p.2) := by
  refine ⟨schemaFields fs, ?_, ?_, ?_, ?_, ?_, ?_⟩
  · simp [convertWasmTypeToJson, objLookup, lookupAssoc]
  · simp [convertWasmTypeToJson, objLookup, lookupAssoc]
  · simp [convertWasmTypeToJson, objLookup, lookupAssoc]
  · simp [convertWasmTypeToJson, objLookup, lookupAssoc]
  · simp [schemaFields_eq_map]
  · intro p hp
    rw [schemaFields_eq_map]
    have hnd : ((fs.map fun p => (p.1, convertWasmTypeToJson p.2)).map Prod.fst).Nodup := by
      simpa [Function.comp] using h
    exact lookupAssoc_mem_nodup hnd
      (List.mem_map.mpr ⟨p, hp, rfl⟩)

/-- Witness for C9 at a concrete two-field record type. -/
theorem c9_record_schema_witness :
    ∃ props : List (String × Json),
      objLookup "type" (convertWasmTypeToJson (.record [("x", .string), ("y", .u8)]))
          = some (.str "object")
        ∧ objLookup "additionalProperties"
            (convertWasmTypeToJson (.record [("x", .string), ("y", .u8)]))
            = some (.bool false)
        ∧ objLookup "required" (convertWasmTypeToJson (.record [("x", .string), ("y", .u8)]))
            = some (.arr ([("x", WasmType.string), ("y", WasmType.u8)].map fun p => .str p.1))
        ∧ objLookup "properties"
            (convertWasmTypeToJson (.record [("x", .string), ("y", .u8)]))
            = some (.obj props)
        ∧ props.length = [("x", WasmType.string), ("y", WasmType.u8)].length
        ∧ ∀ p ∈ [("x", WasmType.string), ("y", WasmType.u8)],
            lookupAssoc p.1 props = some (convertWasmTypeToJson p.2) :=
  c9_record_schema [("x", .string), ("y", .u8)] (by simp)

/-! ### Claim C8 -/

theorem rsplitOnceList_eq_none {c : Char} :
    ∀ {cs : List Char}, c ∉ cs → rsplitOnceList cs c = none := by
  intro cs
  induction cs with
  | nil => intro _; rfl
  | cons x xs ih =>
    intro h
    have hx : x ≠ c := fun hxc => h (hxc ▸ List.mem_cons_self x xs)
    have hxs : c ∉ xs := fun hmem => h (List.mem_cons_of_mem x hmem)
    simp [rsplitOnceList, ih hxs, hx]

theorem rsplitOnceList_last {c : Char} (i l : List Char) (hl : c ∉ l) :
    rsplitOnceList (i ++ c :: l) c = some (i, l) := by
  induction i with
  | nil => simp [rsplitOnceList, rsplitOnceList_eq_none hl]
  | cons x xs ih => simp [rsplitOnceList, ih]

theorem containsChar_last (i l : List Char) :
    containsChar (i ++ '.' :: l) '.' = true := by
  simp [containsChar]

/-- C8: a qualified name with at least one dot is split on the LAST dot
into an interface path and a local name; the interface path is resolved
as a top-level export (`InterfaceNotFound` on a miss), then the local
name inside it (`FunctionNotFound` on a miss); a dot-free name is looked
up directly as a top-level export. -/
theorem c8_function_resolution (inst : WInstance) (i l : List Char)
    (hl : '.' ∉ l) :
    (getExportIndexTop inst (String.mk i) = none →
        getFunctionFromInstance inst (String.mk (i ++ '.' :: l))
          = .error (.interfaceNotFound (String.mk i)))
      ∧ (∀ node, getExportIndexTop inst (String.mk i) = some node →
          getExportIndexIn node (String.mk l) = none →
          getFunctionFromInstance inst (String.mk (i ++ '.' :: l))
            = .error (.functionNotFound (String.mk i ++ "." ++ String.mk l)))
      ∧ (∀ node hf, getExportIndexTop inst (String.mk i) = some node →
          getExportIndexIn node (String.mk l) = some (.funcNode hf) →
          getFunctionFromInstance inst (String.mk (i ++ '.' :: l)) = .ok hf)
      ∧ (∀ cs : List Char, '.' ∉ cs →
          getFunctionFromInstance inst (String.mk cs)
            = match getExportIndexTop inst (String.mk cs) with
              | none => .error (.functionNotFound (String.mk cs))
              | some node =>
                match getFunc node with
                | some hf => .ok hf
                | none => .error (.execution "Failed to get function reference")) := by
  have htl : (String.mk (i ++ '.' :: l)).toList = i ++ '.' :: l := rfl
  have hsplit : rsplitOnce (String.mk (i ++ '.' :: l)) '.' = some (String.mk i, String.mk l) := by
    simp [rsplitOnce, htl, rsplitOnceList_last i l hl]
  refine ⟨?_, ?_, ?_, ?_⟩
  · intro htop
    simp [getFunctionFromInstance, htl, containsChar_last, hsplit, htop]
  · intro node htop hin
    simp [getFunctionFromInstance, htl, containsChar_last, hsplit, htop, hin]
  · intro node hf htop hin
    simp [getFunctionFromInstance, htl, containsChar_last, hsplit, htop, hin, getFunc]
  · intro cs hcs
    have hnc : containsChar cs '.' = false := by
      simp [containsChar]
      exact hcs
    simp [getFunctionFromInstance, hnc]

/-- Witness for C8: a function inside an instance export is resolved, a
missing function and a missing interface produce the two distinct
errors, and a dot-free name is looked up at the top level. -/
theorem c8_function_resolution_witness :
    ('.' ∉ ("f".toList : List Char))
      ∧ getFunctionFromInstance ⟨[("api", .instNode [("f", .funcNode 7)])]⟩
          (String.mk ("api".toList ++ '.' :: "f".toList)) = .ok 7 := by
  constructor
  · decide
  · exact (c8_function_resolution ⟨[("api", .instNode [("f", .funcNode 7)])]⟩
      "api".toList "f".toList (by decide)).2.2.1
      (.instNode [("f", .funcNode 7)]) 7 rfl rfl

/-! ### Claim C2 -/

theorem jsonAsI64_eq_some {j : Json} {n : Int} :
    jsonAsI64 j = some n ↔
      j = .num (.int n) ∧ -(2 ^ 63) ≤ n ∧ n ≤ 2 ^ 63 - 1 := by
  cases j with
  | num m =>
    cases m with
    | int k =>
      simp only [jsonAsI64, numAsI64]
      by_cases h64 : -(2 ^ 63 : Int) ≤ k ∧ k ≤ 2 ^ 63 - 1
      · rw [if_pos h64]
        constructor
        · rintro h
          cases h
          exact ⟨rfl, h64.1, h64.2⟩
        · rintro ⟨h, _⟩
          cases h
          rfl
      · rw [if_neg h64]
        constructor
        · rintro h
          cases h
        · rintro ⟨h, h1, h2⟩
          cases h
          exact absurd ⟨h1, h2⟩ h64
    | float q => simp [jsonAsI64, numAsI64]
  | null => simp [jsonAsI64]
  | bool b => simp [jsonAsI64]
  | str s2 => simp [jsonAsI64]
  | arr xs => simp [jsonAsI64]
  | obj fs => simp [jsonAsI64]

theorem jsonAsU64_eq_some {j : Json} {u : Nat} :
    jsonAsU64 j = some u ↔
      ∃ n : Int, j = .num (.int n) ∧ 0 ≤ n ∧ n ≤ 2 ^ 64 - 1 ∧ u = n.toNat := by
  cases j with
  | num m =>
    cases m with
    | int k =>
      simp only [jsonAsU64, numAsU64]
      by_cases h64 : (0 : Int) ≤ k ∧ k ≤ 2 ^ 64 - 1
      · rw [if_pos h64]
        constructor
        · rintro h
          cases h
          exact ⟨k, rfl, h64.1, h64.2, rfl⟩
        · rintro ⟨n, hn, h1, h2, rfl⟩
          cases hn
          rfl
      · rw [if_neg h64]
        constructor
        · rintro h
          cases h
        · rintro ⟨n, hn, h1, h2, rfl⟩
          cases hn
          exact absurd ⟨h1, h2⟩ h64
    | float q => simp [jsonAsU64, numAsU64]
  | null => simp [jsonAsU64]
  | bool b => simp [jsonAsU64]
  | str s2 => simp [jsonAsU64]
  | arr xs => simp [jsonAsU64]
  | obj fs => simp [jsonAsU64]

theorem intConv_ok_iff (f : Json → Except Err Val) (lo hi : Int) (mk : Int → Val)
    (m1 : Int → String) (m2 : Json → String)
    (hf : ∀ j, f j =
      match jsonAsI64 j with
      | some n =>
        if lo ≤ n ∧ n ≤ hi then .ok (mk n)
        else .error (.invalidArguments (m1 n))
      | none => .error (.invalidArguments (m2 j)))
    (hlo : -(2 ^ 63) ≤ lo) (hhi : hi ≤ 2 ^ 63 - 1) :
    ∀ j v, f j = .ok v ↔ ∃ n, j = .num (.int n) ∧ lo ≤ n ∧ n ≤ hi ∧ v = mk n := by
  intro j v
  rw [hf j]
  constructor
  · intro h
    cases hj : jsonAsI64 j with
    | none => rw [hj] at h; cases h
    | some n =>
      rw [hj] at h
      simp only at h
      by_cases hr : lo ≤ n ∧ n ≤ hi
      · rw [if_pos hr] at h
        cases h
        obtain ⟨hjn, _, _⟩ := jsonAsI64_eq_some.mp hj
        exact ⟨n, hjn, hr.1, hr.2, rfl⟩
      · rw [if_neg hr] at h
        cases h
  · rintro ⟨n, rfl, h1, h2, rfl⟩
    rw [jsonAsI64_eq_some.mpr ⟨rfl, by omega, by omega⟩]
    simp only
    rw [if_pos ⟨h1, h2⟩]

theorem intConv_err (f : Json → Except Err Val) (lo hi : Int) (mk : Int → Val)
    (m1 : Int → String) (m2 : Json → String)
    (hf : ∀ j, f j =
      match jsonAsI64 j with
      | some n =>
        if lo ≤ n ∧ n ≤ hi then .ok (mk n)
        else .error (.invalidArguments (m1 n))
      | none => .error (.invalidArguments (m2 j)))
    : ∀ j e, f j = .error e → ∃ m, e = .invalidArguments m := by
  intro j e h
  rw [hf j] at h
  cases hj : jsonAsI64 j with
  | none =>
    rw [hj] at h
    cases h
    exact ⟨_, rfl⟩
  | some n =>
    rw [hj] at h
    simp only at h
    by_cases hr : lo ≤ n ∧ n ≤ hi
    · rw [if_pos hr] at h
      cases h
    · rw [if_neg hr] at h
      cases h
      exact ⟨_, rfl⟩

theorem natConv_ok_iff (f : Json → Except Err Val) (hi : Nat) (mk : Nat → Val)
    (m1 : Nat → String) (m2 : Json → String)
    (hf : ∀ j, f j =
      match jsonAsU64 j with
      | some u =>
        if u ≤ hi then .ok (mk u)
        else .error (.invalidArguments (m1 u))
      | none => .error (.invalidArguments (m2 j)))
    (hhi : (hi : Int) ≤ 2 ^ 64 - 1) :
    ∀ j v, f j = .ok v ↔
      ∃ n : Int, j = .num (.int n) ∧ 0 ≤ n ∧ n ≤ (hi : Int) ∧ v = mk n.toNat := by
  intro j v
  rw [hf j]
  constructor
  · intro h
    cases hj : jsonAsU64 j with
    | none => rw [hj] at h; cases h
    | some u =>
      rw [hj] at h
      simp only at h
      by_cases hr : u ≤ hi
      · rw [if_pos hr] at h
        cases h
        obtain ⟨n, hjn, h0, _, rfl⟩ := jsonAsU64_eq_some.mp hj
        exact ⟨n, hjn, h0, by omega, rfl⟩
      · rw [if_neg hr] at h
        cases h
  · rintro ⟨n, rfl, h1, h2, rfl⟩
    rw [jsonAsU64_eq_some.mpr ⟨n, rfl, h1, by omega, rfl⟩]
    simp only
    rw [if_pos (by omega : n.toNat ≤ hi)]

theorem natConv_err (f : Json → Except Err Val) (hi : Nat) (mk : Nat → Val)
    (m1 : Nat → String) (m2 : Json → String)
    (hf : ∀ j, f j =
      match jsonAsU64 j with
      | some u =>
        if u ≤ hi then .ok (mk u)
        else .error (.invalidArguments (m1 u))
      | none => .error (.invalidArguments (m2 j)))
    : ∀ j e, f j = .error e → ∃ m, e = .invalidArguments m := by
  intro j e h
  rw [hf j] at h
  cases hj : jsonAsU64 j with
  | none =>
    rw [hj] at h
    cases h
    exact ⟨_, rfl⟩
  | some u =>
    rw [hj] at h
    simp only at h
    by_cases hr : u ≤ hi
    · rw [if_pos hr] at h
      cases h
    · rw [if_neg hr] at h
      cases h
      exact ⟨_, rfl⟩

theorem int64Conv_ok_iff (f : Json → Except Err Val) (mk : Int → Val)
    (m2 : Json → String)
    (hf : ∀ j, f j =
      match jsonAsI64 j with
      | some n => .ok (mk n)
      | none => .error (.invalidArguments (m2 j))) :
    ∀ j v, f j = .ok v ↔
      ∃ n, j = .num (.int n) ∧ -(2 ^ 63) ≤ n ∧ n ≤ 2 ^ 63 - 1 ∧ v = mk n := by
  intro j v
  rw [hf j]
  constructor
  · intro h
    cases hj : jsonAsI64 j with
    | none => rw [hj] at h; cases h
    | some n =>
      rw [hj] at h
      cases h
      obtain ⟨hjn, h1, h2⟩ := jsonAsI64_eq_some.mp hj
      exact ⟨n, hjn, h1, h2, rfl⟩
  · rintro ⟨n, rfl, h1, h2, rfl⟩
    rw [jsonAsI64_eq_some.mpr ⟨rfl, h1, h2⟩]

theorem int64Conv_err (f : Json → Except Err Val) (mk : Int → Val)
    (m2 : Json → String)
    (hf : ∀ j, f j =
      match jsonAsI64 j with
      | some n => .ok (mk n)
      | none => .error (.invalidArguments (m2 j))) :
    ∀ j e, f j = .error e → ∃ m, e = .invalidArguments m := by
  intro j e h
  rw [hf j] at h
  cases hj : jsonAsI64 j with
  | none =>
    rw [hj] at h
    cases h
    exact ⟨_, rfl⟩
  | some n =>
    rw [hj] at h
    cases h

theorem nat64Conv_ok_iff (f : Json → Except Err Val) (mk : Nat → Val)
    (m2 : Json → String)
    (hf : ∀ j, f j =
      match jsonAsU64 j with
      | some u => .ok (mk u)
      | none => .error (.invalidArguments (m2 j))) :
    ∀ j v, f j = .ok v ↔
      ∃ n : Int, j = .num (.int n) ∧ 0 ≤ n ∧ n ≤ 2 ^ 64 - 1 ∧ v = mk n.toNat := by
  intro j v
  rw [hf j]
  constructor
  · intro h
    cases hj : jsonAsU64 j with
    | none => rw [hj] at h; cases h
    | some u =>
      rw [hj] at h
      cases h
      obtain ⟨n, hjn, h1, h2, rfl⟩ := jsonAsU64_eq_some.mp hj
      exact ⟨n, hjn, h1, h2, rfl⟩
  · rintro ⟨n, rfl, h1, h2, rfl⟩
    rw [jsonAsU64_eq_some.mpr ⟨n, rfl, h1, h2, rfl⟩]

theorem nat64Conv_err (f : Json → Except Err Val) (mk : Nat → Val)
    (m2 : Json → String)
    (hf : ∀ j, f j =
      match jsonAsU64 j with
      | some u => .ok (mk u)
      | none => .error (.invalidArguments (m2 j))) :
    ∀ j e, f j = .error e → ∃ m, e = .invalidArguments m := by
  intro j e h
  rw [hf j] at h
  cases hj : jsonAsU64 j with
  | none =>
    rw [hj] at h
    cases h
    exact ⟨_, rfl⟩
  | some u =>
    rw [hj] at h
    cases h

/-- C2: for each signed width `sN`, marshalling succeeds exactly on the
integers in `[-2^(N-1), 2^(N-1)-1]` (producing the corresponding value),
and for each unsigned width `uN` exactly on the non-negative integers up
to `2^N - 1`; every failure is an `InvalidArguments` error. -/
theorem c2_integer_marshalling :
    (∀ j v, convertJsonToWasmValue j .s8 = .ok v ↔
        ∃ n, j = .num (.int n) ∧ -128 ≤ n ∧ n ≤ 127 ∧ v = .s8 n)
      ∧ (∀ j e, convertJsonToWasmValue j .s8 = .error e → ∃ m, e = .invalidArguments m)
      ∧ (∀ j v, convertJsonToWasmValue j .s16 = .ok v ↔
          ∃ n, j = .num (.int n) ∧ -32768 ≤ n ∧ n ≤ 32767 ∧ v = .s16 n)
      ∧ (∀ j e, convertJsonToWasmValue j .s16 = .error e → ∃ m, e = .invalidArguments m)
      ∧ (∀ j v, convertJsonToWasmValue j .s32 = .ok v ↔
          ∃ n, j = .num (.int n) ∧ -2147483648 ≤ n ∧ n ≤ 2147483647 ∧ v = .s32 n)
      ∧ (∀ j e, convertJsonToWasmValue j .s32 = .error e → ∃ m, e = .invalidArguments m)
      ∧ (∀ j v, convertJsonToWasmValue j .s64 = .ok v ↔
          ∃ n, j = .num (.int n) ∧ -(2 ^ 63) ≤ n ∧ n ≤ 2 ^ 63 - 1 ∧ v = .s64 n)
      ∧ (∀ j e, convertJsonToWasmValue j .s64 = .error e → ∃ m, e = .invalidArguments m)
      ∧ (∀ j v, convertJsonToWasmValue j .u8 = .ok v ↔
          ∃ n : Int, j = .num (.int n) ∧ 0 ≤ n ∧ n ≤ 255 ∧ v = .u8 n.toNat)
      ∧ (∀ j e, convertJsonToWasmValue j .u8 = .error e → ∃ m, e = .invalidArguments m)
      ∧ (∀ j v, convertJsonToWasmValue j .u16 = .ok v ↔
          ∃ n : Int, j = .num (.int n) ∧ 0 ≤ n ∧ n ≤ 65535 ∧ v = .u16 n.toNat)
      ∧ (∀ j e, convertJsonToWasmValue j .u16 = .error e → ∃ m, e = .invalidArguments m)
      ∧ (∀ j v, convertJsonToWasmValue j .u32 = .ok v ↔
          ∃ n : Int, j = .num (.int n) ∧ 0 ≤ n ∧ n ≤ 4294967295 ∧ v = .u32 n.toNat)
      ∧ (∀ j e, convertJsonToWasmValue j .u32 = .error e → ∃ m, e = .invalidArguments m)
      ∧ (∀ j v, convertJsonToWasmValue j .u64 = .ok v ↔
          ∃ n : Int, j = .num (.int n) ∧ 0 ≤ n ∧ n ≤ 2 ^ 64 - 1 ∧ v = .u64 n.toNat)
      ∧ (∀ j e, convertJsonToWasmValue j .u64 = .error e →
          ∃ m, e = .invalidArguments m) := by
  refine ⟨?_, ?_, ?_, ?_, ?_, ?_, ?_, ?_, ?_, ?_, ?_, ?_, ?_, ?_, ?_, ?_⟩
  · exact intConv_ok_iff _ (-128) 127 .s8 _ _ (fun j => rfl) (by norm_num) (by norm_num)
  · exact intConv_err _ (-128) 127 .s8
      (fun n => "Expected s8 (-128-127), got: " ++ toString n)
      (fun j => "Expected s8, got: " ++ jsonDisplay j) (fun j => rfl)
  · exact intConv_ok_iff _ (-32768) 32767 .s16 _ _ (fun j => rfl) (by norm_num) (by norm_num)
  · exact intConv_err _ (-32768) 32767 .s16
      (fun n => "Expected s16 (-32768-32767), got: " ++ toString n)
      (fun j => "Expected s16, got: " ++ jsonDisplay j) (fun j => rfl)
  · exact intConv_ok_iff _ (-2147483648) 2147483647 .s32 _ _ (fun j => rfl)
      (by norm_num) (by norm_num)
  · exact intConv_err _ (-2147483648) 2147483647 .s32
      (fun n => "Expected s32 (-2147483648-2147483647), got: " ++ toString n)
      (fun j => "Expected s32, got: " ++ jsonDisplay j) (fun j => rfl)
  · exact int64Conv_ok_iff _ .s64 _ (fun j => rfl)
  · exact int64Conv_err _ .s64 (fun j => "Expected s64, got: " ++ jsonDisplay j)
      (fun j => rfl)
  · exact natConv_ok_iff _ 255 .u8 _ _ (fun j => rfl) (by norm_num)
  · exact natConv_err _ 255 .u8
      (fun n => "Expected u8 (0-255), got: " ++ toString n)
      (fun j => "Expected u8, got: " ++ jsonDisplay j) (fun j => rfl)
  · exact natConv_ok_iff _ 65535 .u16 _ _ (fun j => rfl) (by norm_num)
  · exact natConv_err _ 65535 .u16
      (fun n => "Expected u16 (0-65535), got: " ++ toString n)
      (fun j => "Expected u16, got: " ++ jsonDisplay j) (fun j => rfl)
  · exact natConv_ok_iff _ 4294967295 .u32 _ _ (fun j => rfl) (by norm_num)
  · exact natConv_err _ 4294967295 .u32
      (fun n => "Expected u32 (0-4294967295), got: " ++ toString n)
      (fun j => "Expected u32, got: " ++ jsonDisplay j) (fun j => rfl)
  · exact nat64Conv_ok_iff _ .u64 _ (fun j => rfl)
  · exact nat64Conv_err _ .u64 (fun j => "Expected u64, got: " ++ jsonDisplay j)
      (fun j => rfl)

/-- Witness for C2: an in-range signed marshalling succeeds, and the
out-of-range input 300 for `u8` produces an `InvalidArguments` error. -/
theorem c2_integer_marshalling_witness :
    convertJsonToWasmValue (.num (.int 100)) .s8 = .ok (.s8 100)
      ∧ (∃ m, convertJsonToWasmValue (.num (.int 300)) .u8
          = .error (.invalidArguments m)) := by
  constructor
  · exact (c2_integer_marshalling.1 (.num (.int 100)) (.s8 100)).mpr
      ⟨100, rfl, by norm_num, by norm_num, rfl⟩
  · have herr : convertJsonToWasmValue (.num (.int 300)) .u8
        = .error (.invalidArguments "Expected u8 (0-255), got: 300") := by
      simp [convertJsonToWasmValue, jsonAsU64, numAsU64]
      rfl
    obtain ⟨m, hm⟩ := c2_integer_marshalling.2.2.2.2.2.2.2.2.2.1
      (.num (.int 300)) _ herr
    exact ⟨m, hm ▸ herr⟩

/-! ### Claim C3 -/

/-- The positional-array fill loop of `map_named_to_positional_arguments`,
named for the lemmas below. -/
def positionalFold (pp : List (String × Nat)) (arr : List Json)
    (pairs : List (String × Json)) : List Json :=
  pairs.foldl
    (fun acc kv =>
      match lookupAssoc kv.1 pp with
      | some pos => if pos < acc.length then acc.set pos kv.2 else acc
      | none => acc)
    arr

theorem positionalFold_cons (pp : List (String × Nat)) (arr : List Json)
    (kv : String × Json) (rest : List (String × Json)) :
    positionalFold pp arr (kv :: rest)
      = positionalFold pp
          (match lookupAssoc kv.1 pp with
           | some pos => if pos < arr.length then arr.set pos kv.2 else arr
           | none => arr)
          rest := rfl

theorem positionalFold_length (pp : List (String × Nat)) :
    ∀ (pairs : List (String × Json)) (arr : List Json),
      (positionalFold pp arr pairs).length = arr.length := by
  intro pairs
  induction pairs with
  | nil => intro arr; rfl
  | cons kv rest ih =>
    intro arr
    rw [positionalFold_cons]
    cases hk : lookupAssoc kv.1 pp with
    | none => exact ih arr
    | some pos =>
      by_cases hlt : pos < arr.length
      · simp only [if_pos hlt]
        rw [ih, List.length_set]
      · simp only [if_neg hlt]
        exact ih arr

theorem positionalFold_untouched (pp : List (String × Nat)) :
    ∀ (pairs : List (String × Json)) (arr : List Json) (i : Nat),
      (∀ kv ∈ pairs, ∀ p, lookupAssoc kv.1 pp = some p → p ≠ i) →
      (positionalFold pp arr pairs).get? i = arr.get? i := by
  intro pairs
  induction pairs with
  | nil => intro arr i _; rfl
  | cons kv rest ih =>
    intro arr i hni
    rw [positionalFold_cons]
    cases hk : lookupAssoc kv.1 pp with
    | none =>
      exact ih arr i fun kv2 h2 => hni kv2 (List.mem_cons_of_mem _ h2)
    | some pos =>
      have hpos : pos ≠ i := hni kv (List.mem_cons_self _ _) pos hk
      by_cases hlt : pos < arr.length
      · simp only [if_pos hlt]
        rw [ih (arr.set pos kv.2) i fun kv2 h2 => hni kv2 (List.mem_cons_of_mem _ h2)]
        exact List.get?_set_ne _ _ hpos
      · simp only [if_neg hlt]
        exact ih arr i fun kv2 h2 => hni kv2 (List.mem_cons_of_mem _ h2)

theorem positionalFold_get (pp : List (String × Nat))
    (hinj : ∀ k1 p1 k2 p2, lookupAssoc k1 pp = some p1 →
      lookupAssoc k2 pp = some p2 → p1 = p2 → k1 = k2) :
    ∀ (pairs : List (String × Json)) (arr : List Json) (k : String) (v : Json)
      (pos : Nat),
      (pairs.map Prod.fst).Nodup →
      (k, v) ∈ pairs → lookupAssoc k pp = some pos → pos < arr.length →
      (positionalFold pp arr pairs).get? pos = some v := by
  intro pairs
  induction pairs with
  | nil => intro arr k v pos _ hmem; cases hmem
  | cons kv0 rest ih =>
    intro arr k v pos hnd hmem hk hlt
    obtain ⟨k0, v0⟩ := kv0
    simp only [List.map_cons, List.nodup_cons] at hnd
    rw [positionalFold_cons]
    rcases List.mem_cons.mp hmem with heq | hmem2
    · cases heq
      simp only [hk, if_pos hlt]
      have huntouched : ∀ kv2 ∈ rest, ∀ p, lookupAssoc kv2.1 pp = some p → p ≠ pos := by
        intro kv2 h2 p hp hpp
        have hkk : kv2.1 = k := hinj kv2.1 p k pos hp hk hpp
        exact hnd.1 (hkk ▸ List.mem_map.mpr ⟨kv2, h2, rfl⟩)
      rw [positionalFold_untouched pp rest (arr.set pos v) pos huntouched]
      exact List.get?_set_eq_of_lt _ hlt
    · cases hk0 : lookupAssoc k0 pp with
      | none => exact ih arr k v pos hnd.2 hmem2 hk hlt
      | some pos0 =>
        by_cases hlt0 : pos0 < arr.length
        · simp only [if_pos hlt0]
          have hl2 : pos < (arr.set pos0 v0).length := by
            rw [List.length_set]; exact hlt
          exact ih (arr.set pos0 v0) k v pos hnd.2 hmem2 hk hl2
        · simp only [if_neg hlt0]
          exact ih arr k v pos hnd.2 hmem2 hk hlt

theorem lookupAssoc_append {α : Type} (k : String) :
    ∀ (l1 l2 : List (String × α)),
      lookupAssoc k (l1 ++ l2)
        = match lookupAssoc k l1 with
          | some v => some v
          | none => lookupAssoc k l2 := by
  intro l1 l2
  induction l1 with
  | nil => rfl
  | cons p rest ih =>
    cases p with
    | mk k2 w =>
      simp only [List.cons_append, lookupAssoc]
      by_cases hk : k2 = k
      · rw [if_pos hk, if_pos hk]
      · rw [if_neg hk, if_neg hk]
        rw [show (rest.append l2) = rest ++ l2 from rfl, ih]

theorem insertAssoc_not_contains {α : Type} (k : String) (v : α) :
    ∀ (l : List (String × α)), containsKey k l = false → insertAssoc k v l = l ++ [(k, v)] := by
  intro l
  induction l with
  | nil => intro _; rfl
  | cons p rest ih =>
    intro h
    cases p with
    | mk k2 w =>
      simp only [containsKey, lookupAssoc] at h
      by_cases hk : k2 = k
      · rw [if_pos hk] at h
        simp at h
      · rw [if_neg hk] at h
        simp only [insertAssoc, if_neg hk, List.cons_append, List.cons.injEq, true_and]
        exact ih (by simpa [containsKey] using h)

theorem paramPositions_eq :
    ∀ (params : List ParameterInfo), (params.map (fun p => p.name)).Nodup →
      ∀ (acc : List (String × Nat)),
        (∀ p ∈ params, containsKey p.name acc = false) →
        params.foldl (fun acc p => insertAssoc p.name p.position acc) acc
          = acc ++ params.map fun p => (p.name, p.position) := by
  intro params
  induction params with
  | nil => intro _ acc _; simp
  | cons p rest ih =>
    intro hnd acc hdisj
    simp only [List.map_cons, List.nodup_cons] at hnd
    simp only [List.foldl_cons]
    rw [insertAssoc_not_contains p.name p.position acc (hdisj p (List.mem_cons_self _ _))]
    have hdisj2 : ∀ q ∈ rest, containsKey q.name (acc ++ [(p.name, p.position)]) = false := by
      intro q hq
      have hnone : lookupAssoc q.name acc = none := by
        have hc := hdisj q (List.mem_cons_of_mem _ hq)
        simp only [containsKey] at hc
        cases hcase : lookupAssoc q.name acc with
        | none => rfl
        | some v => rw [hcase] at hc; simp at hc
      have hqp : q.name ≠ p.name := fun hh => hnd.1 (hh ▸ List.mem_map.mpr ⟨q, hq, rfl⟩)
      have hpq : p.name ≠ q.name := Ne.symm hqp
      simp [containsKey, lookupAssoc_append, hnone, lookupAssoc, hpq]
    rw [ih hnd.2 (acc ++ [(p.name, p.position)]) hdisj2]
    simp

theorem lookupAssoc_eq_none_of_not_mem {α : Type} {k : String} :
    ∀ {l : List (String × α)}, k ∉ l.map Prod.fst → lookupAssoc k l = none := by
  intro l
  induction l with
  | nil => intro _; rfl
  | cons p rest ih =>
    intro h
    cases p with
    | mk k2 w =>
      simp only [List.map_cons, List.mem_cons] at h
      push_neg at h
      simp only [lookupAssoc, if_neg (fun hh : k2 = k => h.1 hh.symm)]
      exact ih h.2

theorem containsKey_of_mem {α : Type} {k : String} {v : α} :
    ∀ {l : List (String × α)}, (k, v) ∈ l → containsKey k l = true := by
  intro l
  induction l with
  | nil => intro h; cases h
  | cons p rest ih =>
    intro h
    cases p with
    | mk k2 w =>
      rcases List.mem_cons.mp h with heq | hmem
      · cases heq
        simp [containsKey, lookupAssoc]
      · simp only [containsKey, lookupAssoc]
        by_cases hk : k2 = k
        · rw [if_pos hk]; rfl
        · rw [if_neg hk]
          exact ih hmem

/-- C3: argument mapping fails with `InvalidArguments` when a declared
parameter is missing from the named arguments or when an argument names
no parameter; otherwise it returns a positional array whose entry at each
parameter's position is exactly the named argument bound to that
parameter's name.  The well-formedness hypotheses (positions are the
0-based declaration indices, parameter names are distinct, argument keys
are distinct) hold for every catalog built by `get_exports` and every
Rust `HashMap` of arguments. -/
theorem c3_argument_mapping (fi : FunctionInfo) (namedArgs : List (String × Json))
    (hpos : ∀ i (h : i < fi.params.length), (fi.params.get ⟨i, h⟩).position = i)
    (hnames : (fi.params.map (fun p => p.name)).Nodup)
    (hkeys : (namedArgs.map Prod.fst).Nodup) :
    ((∃ p ∈ fi.params, containsKey p.name namedArgs = false) →
        ∃ m, mapNamedToPositionalArguments fi namedArgs
          = .error (.invalidArguments m))
      ∧ ((∃ kv ∈ namedArgs, kv.1 ∉ fi.params.map (fun p => p.name)) →
          ∃ m, mapNamedToPositionalArguments fi namedArgs
            = .error (.invalidArguments m))
      ∧ ((∀ p ∈ fi.params, containsKey p.name namedArgs = true) →
          (∀ kv ∈ namedArgs, kv.1 ∈ fi.params.map (fun p => p.name)) →
          ∃ arr, mapNamedToPositionalArguments fi namedArgs = .ok arr
            ∧ arr.length = fi.params.length
            ∧ ∀ p ∈ fi.params, arr.get? p.position = lookupAssoc p.name namedArgs) := by
  have hpp : fi.params.foldl (fun acc p => insertAssoc p.name p.position acc) []
      = fi.params.map fun p => (p.name, p.position) := by
    have := paramPositions_eq fi.params hnames [] (fun q _ => rfl)
    simpa using this
  have hmapkeys : ((fi.params.map fun p => (p.name, p.position)).map Prod.fst).Nodup := by
    simpa [Function.comp] using hnames
  refine ⟨?_, ?_, ?_⟩
  · rintro ⟨p, hp, hcont⟩
    have hfind : (fi.params.find? (fun p => !containsKey p.name namedArgs)).isSome := by
      rw [List.find?_isSome]
      exact ⟨p, hp, by simp [hcont]⟩
    obtain ⟨p2, hp2⟩ := Option.isSome_iff_exists.mp hfind
    exact ⟨"Missing required argument: " ++ p2.name ++ " (position: "
        ++ toString p2.position ++ ")",
      by simp only [mapNamedToPositionalArguments, hp2]⟩
  · rintro ⟨kv, hkv, hnotin⟩
    cases hfind1 : fi.params.find? (fun p => !containsKey p.name namedArgs) with
    | some p2 =>
      exact ⟨"Missing required argument: " ++ p2.name ++ " (position: "
          ++ toString p2.position ++ ")",
        by simp only [mapNamedToPositionalArguments, hfind1]⟩
    | none =>
      have hc : containsKey kv.1
          (fi.params.foldl (fun acc p => insertAssoc p.name p.position acc) []) = false := by
        rw [hpp]
        have : kv.1 ∉ (fi.params.map fun p => (p.name, p.position)).map Prod.fst := by
          simpa [Function.comp] using hnotin
        simp [containsKey, lookupAssoc_eq_none_of_not_mem this]
      have hfind2 : (namedArgs.find? (fun kv =>
          !containsKey kv.1
            (fi.params.foldl (fun acc p => insertAssoc p.name p.position acc) []))).isSome := by
        rw [List.find?_isSome]
        exact ⟨kv, hkv, by simp [hc]⟩
      obtain ⟨kv2, hkv2⟩ := Option.isSome_iff_exists.mp hfind2
      exact ⟨"Unexpected argument: " ++ kv2.1,
        by simp only [mapNamedToPositionalArguments, hfind1, hkv2]⟩
  · intro hall hin
    have hfind1 : fi.params.find? (fun p => !containsKey p.name namedArgs) = none :=
      List.find?_eq_none.mpr (fun p hp => by simp [hall p hp])
    have hfind2 : namedArgs.find? (fun kv =>
        !containsKey kv.1
          (fi.params.foldl (fun acc p => insertAssoc p.name p.position acc) [])) = none := by
      refine List.find?_eq_none.mpr (fun kv hkv => ?_)
      have hmem : kv.1 ∈ fi.params.map (fun p => p.name) := hin kv hkv
      obtain ⟨p, hp, hpname⟩ := List.mem_map.mp hmem
      have hm : (kv.1, p.position) ∈ (fi.params.map fun p => (p.name, p.position)) := by
        rw [← hpname]
        exact List.mem_map.mpr ⟨p, hp, rfl⟩
      have : containsKey kv.1
          (fi.params.foldl (fun acc p => insertAssoc p.name p.position acc) []) = true := by
        rw [hpp]
        exact containsKey_of_mem hm
      simp [this]
    have hinj : ∀ k1 p1 k2 p2,
        lookupAssoc k1 (fi.params.map fun p => (p.name, p.position)) = some p1 →
        lookupAssoc k2 (fi.params.map fun p => (p.name, p.position)) = some p2 →
        p1 = p2 → k1 = k2 := by
      intro k1 p1 k2 p2 h1 h2 hpe
      obtain ⟨q1, hq1, hq1e⟩ := List.mem_map.mp (lookupAssoc_mem h1)
      obtain ⟨q2, hq2, hq2e⟩ := List.mem_map.mp (lookupAssoc_mem h2)
      obtain ⟨⟨i1, hi1⟩, hg1⟩ := List.mem_iff_get.mp hq1
      obtain ⟨⟨i2, hi2⟩, hg2⟩ := List.mem_iff_get.mp hq2
      have hp1 : p1 = i1 := by
        have := hpos i1 hi1
        rw [hg1] at this
        rw [← (Prod.mk.injEq _ _ _ _).mp hq1e |>.2, this]
      have hp2 : p2 = i2 := by
        have := hpos i2 hi2
        rw [hg2] at this
        rw [← (Prod.mk.injEq _ _ _ _).mp hq2e |>.2, this]
      have hieq : i1 = i2 := by omega
      have hqeq : q1 = q2 := by
        rw [← hg1, ← hg2]
        congr 1
        exact Fin.ext hieq
      rw [← (Prod.mk.injEq _ _ _ _).mp hq1e |>.1,
        ← (Prod.mk.injEq _ _ _ _).mp hq2e |>.1, hqeq]
    rw [hpp] at hfind2
    refine ⟨positionalFold (fi.params.map fun p => (p.name, p.position))
        (List.replicate fi.params.length Json.null) namedArgs, ?_, ?_, ?_⟩
    · simp only [mapNamedToPositionalArguments, hfind1, hpp, hfind2]
      rfl
    · rw [positionalFold_length, List.length_replicate]
    · intro p hp
      obtain ⟨⟨i, hi⟩, hget⟩ := List.mem_iff_get.mp hp
      have hposi : p.position = i := by
        have := hpos i hi
        rw [hget] at this
        exact this
      have hlk : lookupAssoc p.name (fi.params.map fun p => (p.name, p.position))
          = some p.position :=
        lookupAssoc_mem_nodup hmapkeys (List.mem_map.mpr ⟨p, hp, rfl⟩)
      obtain ⟨v, hv⟩ := Option.isSome_iff_exists.mp (by
        rw [show (lookupAssoc p.name namedArgs).isSome = containsKey p.name namedArgs from rfl,
          hall p hp])
      rw [hv]
      exact positionalFold_get _ hinj namedArgs _ p.name v p.position hkeys
        (lookupAssoc_mem hv) hlk
        (by rw [List.length_replicate]; omega)

/-- Witness for C3: two parameters at positions 0 and 1, arguments given
in reverse order, are mapped to their declared positions. -/
theorem c3_argument_mapping_witness :
    ∃ arr,
      mapNamedToPositionalArguments
          ⟨"add", [⟨"a", .str "integer", .s32, 0⟩, ⟨"b", .str "integer", .s32, 1⟩], []⟩
          [("b", .num (.int 2)), ("a", .num (.int 1))] = .ok arr
        ∧ arr.length = ([⟨"a", .str "integer", .s32, 0⟩,
            ⟨"b", .str "integer", .s32, 1⟩] : List ParameterInfo).length
        ∧ ∀ p ∈ ([⟨"a", .str "integer", .s32, 0⟩,
            ⟨"b", .str "integer", .s32, 1⟩] : List ParameterInfo),
            arr.get? p.position
              = lookupAssoc p.name [("b", .num (.int 2)), ("a", .num (.int 1))] := by
  refine (c3_argument_mapping
      ⟨"add", [⟨"a", .str "integer", .s32, 0⟩, ⟨"b", .str "integer", .s32, 1⟩], []⟩
      [("b", .num (.int 2)), ("a", .num (.int 1))] ?_ ?_ ?_).2.2 ?_ ?_
  · intro i h
    match i, h with
    | 0, _ => rfl
    | 1, _ => rfl
  · simp
  · simp
  · intro p hp
    rcases List.mem_cons.mp hp with rfl | hp2
    · rfl
    · rcases List.mem_cons.mp hp2 with rfl | hp3
      · rfl
      · cases hp3
  · intro kv hkv
    rcases List.mem_cons.mp hkv with rfl | hkv2
    · simp
    · rcases List.mem_cons.mp hkv2 with rfl | hkv3
      · simp
      · cases hkv3

/-! ### Claim C1: round-trip machinery -/

theorem jsize_lt_of_memO {kv : String × Json} :
    ∀ {fs : List (String × Json)}, kv ∈ fs → jsize kv.2 < jsizeO fs := by
  intro fs
  induction fs with
  | nil => intro h; cases h
  | cons p rest ih =>
    intro h
    rcases List.mem_cons.mp h with rfl | hmem
    · simp [jsizeO]; omega
    · have := ih hmem
      cases p
      simp [jsizeO]
      omega

theorem forall2_exists_mem {α β : Type} {R : α → β → Prop} :
    ∀ {xs : List α} {ys : List β}, List.Forall₂ R xs ys →
      ∀ x ∈ xs, ∃ y ∈ ys, R x y := by
  intro xs ys h
  induction h with
  | nil => intro x hx; cases hx
  | cons hab hrest ih =>
    intro x hx
    rcases List.mem_cons.mp hx with rfl | hmem
    · exact ⟨_, List.mem_cons_self _ _, hab⟩
    · obtain ⟨y, hy, hr⟩ := ih x hmem
      exact ⟨y, List.mem_cons_of_mem _ hy, hr⟩

theorem num_round_untyped (m : JNum) (h : goodU (.num m) = true) :
    ∃ v j2, toWasmWithType (.num m) none = .ok v
      ∧ wasmToJson v = .ok j2 ∧ jsonEq j2 (.num m) = true := by
  cases m with
  | int n =>
    simp only [goodU, decide_eq_true_eq] at h
    by_cases h64 : -(2 ^ 63 : Int) ≤ n ∧ n ≤ 2 ^ 63 - 1
    · have hI : numAsI64 (.int n) = some n := by
        simp only [numAsI64]
        rw [if_pos h64]
      refine ⟨.s64 n, .num (.int n), ?_, by simp [wasmToJson], by simp [jsonEq]⟩
      simp only [toWasmWithType, toWasmNum, untypedNum, hI]
    · have hI : numAsI64 (.int n) = none := by
        simp only [numAsI64]
        rw [if_neg h64]
      have hU : numAsU64 (.int n) = some n.toNat := by
        simp only [numAsU64]
        rw [if_pos (by omega : (0 : Int) ≤ n ∧ n ≤ 2 ^ 64 - 1)]
      refine ⟨.u64 n.toNat, .num (.int n), ?_, ?_, by simp [jsonEq]⟩
      · simp only [toWasmWithType, toWasmNum, untypedNum, hI, hU]
      · simp [wasmToJson, Int.toNat_of_nonneg (by omega : (0 : Int) ≤ n)]
  | float q =>
    refine ⟨.float64 (some q), .num (.float q), ?_, ?_, by simp [jsonEq]⟩
    · simp [toWasmWithType, toWasmNum, untypedNum, numAsI64, numAsU64, numAsF64]
    · simp [wasmToJson, numFromF64]

theorem num_round_fallback (m : JNum) (t : WasmType)
    (hfb : toWasmNum m (some t) = untypedNum m) (h : goodU (.num m) = true) :
    ∃ v j2, toWasmWithType (.num m) (some t) = .ok v
      ∧ wasmToJson v = .ok j2 ∧ jsonEq j2 (.num m) = true := by
  obtain ⟨v, j2, h1, h2, h3⟩ := num_round_untyped m h
  refine ⟨v, j2, ?_, h2, h3⟩
  have heq : toWasmWithType (.num m) (some t) = toWasmNum m (some t) := by
    simp [toWasmWithType]
  have heq2 : toWasmWithType (.num m) none = untypedNum m := by
    simp [toWasmWithType, toWasmNum]
  rw [heq, hfb, ← heq2]
  exact h1

theorem num_round_typed (t : WasmType) (m : JNum) (h : goodTNum t m = true) :
    ∃ v j2, toWasmWithType (.num m) (some t) = .ok v
      ∧ wasmToJson v = .ok j2 ∧ jsonEq j2 (.num m) = true := by
  cases m with
  | int n =>
    cases t with
    | u8 =>
      simp only [goodTNum, decide_eq_true_eq] at h
      have hU : numAsU64 (.int n) = some n.toNat := by
        simp only [numAsU64]
        rw [if_pos (by omega : (0 : Int) ≤ n ∧ n ≤ 2 ^ 64 - 1)]
      refine ⟨.u8 n.toNat, .num (.int n), ?_, ?_, by simp [jsonEq]⟩
      · simp only [toWasmWithType, toWasmNum, hU]
        rw [if_pos (by omega : n.toNat ≤ 255)]
      · simp [wasmToJson, Int.toNat_of_nonneg h.1]
    | u16 =>
      simp only [goodTNum, decide_eq_true_eq] at h
      have hU : numAsU64 (.int n) = some n.toNat := by
        simp only [numAsU64]
        rw [if_pos (by omega : (0 : Int) ≤ n ∧ n ≤ 2 ^ 64 - 1)]
      refine ⟨.u16 n.toNat, .num (.int n), ?_, ?_, by simp [jsonEq]⟩
      · simp only [toWasmWithType, toWasmNum, hU]
        rw [if_pos (by omega : n.toNat ≤ 65535)]
      · simp [wasmToJson, Int.toNat_of_nonneg h.1]
    | u32 =>
      simp only [goodTNum, decide_eq_true_eq] at h
      have hU : numAsU64 (.int n) = some n.toNat := by
        simp only [numAsU64]
        rw [if_pos (by omega : (0 : Int) ≤ n ∧ n ≤ 2 ^ 64 - 1)]
      refine ⟨.u32 n.toNat, .num (.int n), ?_, ?_, by simp [jsonEq]⟩
      · simp only [toWasmWithType, toWasmNum, hU]
        rw [if_pos (by omega : n.toNat ≤ 4294967295)]
      · simp [wasmToJson, Int.toNat_of_nonneg h.1]
    | u64 =>
      simp only [goodTNum, decide_eq_true_eq] at h
      have hU : numAsU64 (.int n) = some n.toNat := by
        simp only [numAsU64]
        rw [if_pos (by omega : (0 : Int) ≤ n ∧ n ≤ 2 ^ 64 - 1)]
      refine ⟨.u64 n.toNat, .num (.int n), ?_, ?_, by simp [jsonEq]⟩
      · simp only [toWasmWithType, toWasmNum, hU]
      · simp [wasmToJson, Int.toNat_of_nonneg h.1]
    | s8 =>
      simp only [goodTNum, decide_eq_true_eq] at h
      have hI : numAsI64 (.int n) = some n := by
        simp only [numAsI64]
        rw [if_pos (by omega : -(2 ^ 63 : Int) ≤ n ∧ n ≤ 2 ^ 63 - 1)]
      refine ⟨.s8 n, .num (.int n), ?_, by simp [wasmToJson], by simp [jsonEq]⟩
      simp only [toWasmWithType, toWasmNum, hI]
      rw [if_pos h]
    | s16 =>
      simp only [goodTNum, decide_eq_true_eq] at h
      have hI : numAsI64 (.int n) = some n := by
        simp only [numAsI64]
        rw [if_pos (by omega : -(2 ^ 63 : Int) ≤ n ∧ n ≤ 2 ^ 63 - 1)]
      refine ⟨.s16 n, .num (.int n), ?_, by simp [wasmToJson], by simp [jsonEq]⟩
      simp only [toWasmWithType, toWasmNum, hI]
      rw [if_pos h]
    | s32 =>
      simp only [goodTNum, decide_eq_true_eq] at h
      have hI : numAsI64 (.int n) = some n := by
        simp only [numAsI64]
        rw [if_pos (by omega : -(2 ^ 63 : Int) ≤ n ∧ n ≤ 2 ^ 63 - 1)]
      refine ⟨.s32 n, .num (.int n), ?_, by simp [wasmToJson], by simp [jsonEq]⟩
      simp only [toWasmWithType, toWasmNum, hI]
      rw [if_pos h]
    | s64 =>
      simp only [goodTNum, decide_eq_true_eq] at h
      have hI : numAsI64 (.int n) = some n := by
        simp only [numAsI64]
        rw [if_pos h]
      refine ⟨.s64 n, .num (.int n), ?_, by simp [wasmToJson], by simp [jsonEq]⟩
      simp only [toWasmWithType, toWasmNum, hI]
    | float32 => simp [goodTNum] at h
    | float64 => simp [goodTNum] at h
    | bool => exact num_round_fallback _ _ rfl (by simpa [goodTNum, goodU] using h)
    | char => exact num_round_fallback _ _ rfl (by simpa [goodTNum, goodU] using h)
    | string => exact num_round_fallback _ _ rfl (by simpa [goodTNum, goodU] using h)
    | list t2 => exact num_round_fallback _ _ rfl (by simpa [goodTNum, goodU] using h)
    | record fs2 => exact num_round_fallback _ _ rfl (by simpa [goodTNum, goodU] using h)
    | tuple ts2 => exact num_round_fallback _ _ rfl (by simpa [goodTNum, goodU] using h)
    | variant cs2 => exact num_round_fallback _ _ rfl (by simpa [goodTNum, goodU] using h)
    | enum ns2 => exact num_round_fallback _ _ rfl (by simpa [goodTNum, goodU] using h)
    | option t2 => exact num_round_fallback _ _ rfl (by simpa [goodTNum, goodU] using h)
    | result o2 e2 => exact num_round_fallback _ _ rfl (by simpa [goodTNum, goodU] using h)
    | flags ns2 => exact num_round_fallback _ _ rfl (by simpa [goodTNum, goodU] using h)
    | own => exact num_round_fallback _ _ rfl (by simpa [goodTNum, goodU] using h)
    | borrow => exact num_round_fallback _ _ rfl (by simpa [goodTNum, goodU] using h)
    | future t2 => exact num_round_fallback _ _ rfl (by simpa [goodTNum, goodU] using h)
    | stream t2 => exact num_round_fallback _ _ rfl (by simpa [goodTNum, goodU] using h)
    | errorContext => exact num_round_fallback _ _ rfl (by simpa [goodTNum, goodU] using h)
  | float q =>
    cases t with
    | float64 =>
      refine ⟨.float64 (some q), .num (.float q), ?_, ?_, by simp [jsonEq]⟩
      · simp [toWasmWithType, toWasmNum, numAsF64]
      · simp [wasmToJson, numFromF64]
    | float32 => simp [goodTNum] at h
    | u8 => simp [goodTNum] at h
    | u16 => simp [goodTNum] at h
    | u32 => simp [goodTNum] at h
    | u64 => simp [goodTNum] at h
    | s8 => simp [goodTNum] at h
    | s16 => simp [goodTNum] at h
    | s32 => simp [goodTNum] at h
    | s64 => simp [goodTNum] at h
    | bool => exact num_round_fallback _ _ rfl (by simp [goodU])
    | char => exact num_round_fallback _ _ rfl (by simp [goodU])
    | string => exact num_round_fallback _ _ rfl (by simp [goodU])
    | list t2 => exact num_round_fallback _ _ rfl (by simp [goodU])
    | record fs2 => exact num_round_fallback _ _ rfl (by simp [goodU])
    | tuple ts2 => exact num_round_fallback _ _ rfl (by simp [goodU])
    | variant cs2 => exact num_round_fallback _ _ rfl (by simp [goodU])
    | enum ns2 => exact num_round_fallback _ _ rfl (by simp [goodU])
    | option t2 => exact num_round_fallback _ _ rfl (by simp [goodU])
    | result o2 e2 => exact num_round_fallback _ _ rfl (by simp [goodU])
    | flags ns2 => exact num_round_fallback _ _ rfl (by simp [goodU])
    | own => exact num_round_fallback _ _ rfl (by simp [goodU])
    | borrow => exact num_round_fallback _ _ rfl (by simp [goodU])
    | future t2 => exact num_round_fallback _ _ rfl (by simp [goodU])
    | stream t2 => exact num_round_fallback _ _ rfl (by simp [goodU])
    | errorContext => exact num_round_fallback _ _ rfl (by simp [goodU])

theorem listU_round : ∀ (xs : List Json),
    (∀ x ∈ xs, goodU x = true →
      ∃ v j2, toWasmWithType x none = .ok v ∧ wasmToJson v = .ok j2
        ∧ jsonEq j2 x = true) →
    goodUList xs = true →
    ∃ vs js, toWasmListU xs = .ok vs ∧ wasmToJsonList vs = .ok js
      ∧ jsonEqList js xs = true := by
  intro xs
  induction xs with
  | nil =>
    intro _ _
    exact ⟨[], [], by simp [toWasmListU], by simp [wasmToJsonList], by simp [jsonEqList]⟩
  | cons x rest ih =>
    intro IH hg
    simp only [goodUList, Bool.and_eq_true] at hg
    obtain ⟨v, j2, h1, h2, h3⟩ := IH x (List.mem_cons_self _ _) hg.1
    obtain ⟨vs, js, h4, h5, h6⟩ :=
      ih (fun y hy => IH y (List.mem_cons_of_mem _ hy)) hg.2
    refine ⟨v :: vs, j2 :: js, ?_, ?_, ?_⟩
    · simp only [toWasmListU, h1, h4]
    · simp only [wasmToJsonList, h2, h5]
    · simp [jsonEqList, h3, h6]

theorem objU_round : ∀ (fs : List (String × Json)),
    (∀ kv ∈ fs, goodU kv.2 = true →
      ∃ v j2, toWasmWithType kv.2 none = .ok v ∧ wasmToJson v = .ok j2
        ∧ jsonEq j2 kv.2 = true) →
    goodUObj fs = true →
    ∃ (ws : List (String × Val)) (js : List (String × Json)),
      toWasmObjU fs = .ok ws
        ∧ ws.map Prod.fst = fs.map Prod.fst
        ∧ List.Forall₂ (fun (kw : String × Val) (kj : String × Json) =>
            kw.1 = kj.1 ∧ wasmToJson kw.2 = .ok kj.2) ws js
        ∧ List.Forall₂ (fun (kj : String × Json) (kv : String × Json) =>
            kj.1 = kv.1 ∧ jsonEq kj.2 kv.2 = true) js fs := by
  intro fs
  induction fs with
  | nil =>
    intro _ _
    exact ⟨[], [], by simp [toWasmObjU], rfl, .nil, .nil⟩
  | cons kv rest ih =>
    intro IH hg
    obtain ⟨k, v⟩ := kv
    simp only [goodUObj, Bool.and_eq_true] at hg
    obtain ⟨w, j2, h1, h2, h3⟩ := IH (k, v) (List.mem_cons_self _ _) hg.1
    obtain ⟨ws, js, h4, h5, h6, h7⟩ :=
      ih (fun kv2 hkv2 => IH kv2 (List.mem_cons_of_mem _ hkv2)) hg.2
    refine ⟨(k, w) :: ws, (k, j2) :: js, ?_, ?_, ?_, ?_⟩
    · simp only [toWasmObjU, h1, h4]
    · simp [h5]
    · exact .cons ⟨rfl, h2⟩ h6
    · exact .cons ⟨rfl, h3⟩ h7

theorem fieldsGo_ok :
    ∀ {ws : List (String × Val)} {js : List (String × Json)},
      List.Forall₂ (fun (kw : String × Val) (kj : String × Json) =>
        kw.1 = kj.1 ∧ wasmToJson kw.2 = .ok kj.2) ws js →
      ∀ acc, (∀ k ∈ ws.map Prod.fst, containsKey k acc = false) →
        (ws.map Prod.fst).Nodup →
        wasmToJsonFieldsGo acc ws = .ok (acc ++ js) := by
  intro ws js hrel
  induction hrel with
  | nil =>
    intro acc _ _
    simp [wasmToJsonFieldsGo]
  | @cons a b as bs hab hrest ih =>
    intro acc hdisj hnd
    obtain ⟨k, v⟩ := a
    obtain ⟨k2, jb⟩ := b
    obtain ⟨hk, hjb⟩ := hab
    simp only at hk
    subst hk
    simp only [List.map_cons, List.nodup_cons] at hnd
    simp only [wasmToJsonFieldsGo, hjb]
    rw [insertAssoc_not_contains k jb acc
      (hdisj k (by simp))]
    rw [ih (acc ++ [(k, jb)]) ?disj hnd.2]
    · simp
    case disj =>
      intro k3 hk3
      have hnone : lookupAssoc k3 acc = none := by
        have hc := hdisj k3 (by simp [hk3])
        simp only [containsKey] at hc
        cases hcase : lookupAssoc k3 acc with
        | none => rfl
        | some v2 => rw [hcase] at hc; simp at hc
      have hks : k ≠ k3 := by
        intro hh
        rw [hh] at hnd
        exact hnd.1 hk3
      simp [containsKey, lookupAssoc_append, hnone, lookupAssoc, hks]

theorem jsonEqObj_of_lookup : ∀ (xs ys : List (String × Json)),
    (∀ kv ∈ xs, ∃ w, lookupAssoc kv.1 ys = some w ∧ jsonEq kv.2 w = true) →
    jsonEqObj xs ys = true := by
  intro xs ys
  induction xs with
  | nil => intro _; simp [jsonEqObj]
  | cons kv rest ih =>
    intro H
    obtain ⟨w, hw, he⟩ := H kv (List.mem_cons_self _ _)
    obtain ⟨k, v⟩ := kv
    simp only [jsonEqObj, hw, he, Bool.and_eq_true]
    refine ⟨trivial, ih fun kv2 h2 => H kv2 (List.mem_cons_of_mem _ h2)⟩

theorem toWasmRecordFields_cons_some (n : String) (t : WasmType)
    (rest : List (String × WasmType)) (fs : List (String × Json)) (fv : Json)
    (hlk : lookupAssoc n fs = some fv) :
    toWasmRecordFields ((n, t) :: rest) fs
      = match toWasmWithType fv (some t) with
        | .error e => .error e
        | .ok v =>
          match toWasmRecordFields rest fs with
          | .error e => .error e
          | .ok vs => .ok ((n, v) :: vs) := by
  simp only [toWasmRecordFields]
  split
  next fv2 heq =>
    rw [hlk] at heq
    cases heq
    rfl
  next heq =>
    rw [hlk] at heq
    cases heq

theorem goodTFields_cons {n : String} {t : WasmType}
    {rest : List (String × WasmType)} {fs : List (String × Json)}
    (h : goodTFields ((n, t) :: rest) fs = true) :
    ∃ fv, lookupAssoc n fs = some fv ∧ goodT t fv = true
      ∧ goodTFields rest fs = true := by
  rw [goodTFields] at h
  rw [Bool.and_eq_true] at h
  cases hlk : lookupAssoc n fs with
  | none =>
    rw [hlk] at h
    simp at h
  | some fv =>
    rw [hlk] at h
    exact ⟨fv, rfl, h.1, h.2⟩

theorem recordFields_round : ∀ (rts : List (String × WasmType))
    (fs : List (String × Json)),
    (∀ (n : String) (t : WasmType) (v : Json), (n, t) ∈ rts →
      lookupAssoc n fs = some v → goodT t v = true →
      ∃ w j2, toWasmWithType v (some t) = .ok w ∧ wasmToJson w = .ok j2
        ∧ jsonEq j2 v = true) →
    goodTFields rts fs = true →
    ∃ (ws : List (String × Val)) (js : List (String × Json)),
      toWasmRecordFields rts fs = .ok ws
        ∧ ws.map Prod.fst = rts.map Prod.fst
        ∧ List.Forall₂ (fun (kw : String × Val) (kj : String × Json) =>
            kw.1 = kj.1 ∧ wasmToJson kw.2 = .ok kj.2) ws js
        ∧ (∀ kj ∈ js, ∃ fv, lookupAssoc kj.1 fs = some fv
            ∧ jsonEq kj.2 fv = true) := by
  intro rts
  induction rts with
  | nil =>
    intro fs _ _
    exact ⟨[], [], by simp [toWasmRecordFields], rfl, .nil, by simp⟩
  | cons p rest ih =>
    intro fs IH hg
    obtain ⟨n, t⟩ := p
    obtain ⟨fv, hlk, hgt, hgrest⟩ := goodTFields_cons hg
    obtain ⟨w, j2, h1, h2, h3⟩ := IH n t fv (List.mem_cons_self _ _) hlk hgt
    obtain ⟨ws, js, h4, h5, h6, h7⟩ :=
      ih fs (fun n2 t2 v2 hm => IH n2 t2 v2 (List.mem_cons_of_mem _ hm)) hgrest
    refine ⟨(n, w) :: ws, (n, j2) :: js, ?_, ?_, ?_, ?_⟩
    · rw [toWasmRecordFields_cons_some n t rest fs fv hlk, h1, h4]
    · simp [h5]
    · exact .cons ⟨rfl, h2⟩ h6
    · intro kj hkj
      rcases List.mem_cons.mp hkj with rfl | hm
      · exact ⟨fv, hlk, h3⟩
      · exact h7 kj hm

theorem roundtrip_main : ∀ N : Nat, ∀ j : Json, jsize j ≤ N →
    (goodU j = true →
      ∃ v j2, toWasmWithType j none = .ok v ∧ wasmToJson v = .ok j2
        ∧ jsonEq j2 j = true)
      ∧ (∀ t, goodT t j = true →
        ∃ v j2, toWasmWithType j (some t) = .ok v ∧ wasmToJson v = .ok j2
          ∧ jsonEq j2 j = true) := by
  intro N
  induction N using Nat.strong_induction_on with
  | _ N IHN =>
    intro j hj
    have IHx : ∀ x : Json, jsize x < jsize j →
        (goodU x = true →
          ∃ v j2, toWasmWithType x none = .ok v ∧ wasmToJson v = .ok j2
            ∧ jsonEq j2 x = true)
          ∧ (∀ t, goodT t x = true →
            ∃ v j2, toWasmWithType x (some t) = .ok v ∧ wasmToJson v = .ok j2
              ∧ jsonEq j2 x = true) := by
      intro x hx
      exact IHN (jsize x) (by omega) x le_rfl
    have hArr : ∀ xs : List Json, j = .arr xs → goodUList xs = true →
        ∀ ot, ∃ v j2, toWasmWithType (.arr xs) ot = .ok v
          ∧ wasmToJson v = .ok j2 ∧ jsonEq j2 (.arr xs) = true := by
      intro xs hjx hg ot
      have IHxs : ∀ x ∈ xs, goodU x = true →
          ∃ v j2, toWasmWithType x none = .ok v ∧ wasmToJson v = .ok j2
            ∧ jsonEq j2 x = true := by
        intro x hx
        refine (IHx x ?_).1
        subst hjx
        have := jsize_lt_of_mem hx
        simp [jsize]
        omega
      obtain ⟨vs, js, h1, h2, h3⟩ := listU_round xs IHxs hg
      refine ⟨.list vs, .arr js, ?_, ?_, ?_⟩
      · simp only [toWasmWithType, h1]
      · simp only [wasmToJson, h2]
      · simp only [jsonEq, h3]
    have hObj : ∀ fs : List (String × Json), j = .obj fs →
        ∀ ot : Option WasmType, (∀ rts, ot ≠ some (.record rts)) →
        (decide ((fs.map Prod.fst).Nodup) && goodUObj fs) = true →
        ∃ v j2, toWasmWithType (.obj fs) ot = .ok v ∧ wasmToJson v = .ok j2
          ∧ jsonEq j2 (.obj fs) = true := by
      intro fs hjf ot hot hg
      rw [Bool.and_eq_true] at hg
      obtain ⟨hnd, hobj⟩ := hg
      rw [decide_eq_true_eq] at hnd
      have IHfs : ∀ kv ∈ fs, goodU kv.2 = true →
          ∃ v j2, toWasmWithType kv.2 none = .ok v ∧ wasmToJson v = .ok j2
            ∧ jsonEq j2 kv.2 = true := by
        intro kv hkv
        refine (IHx kv.2 ?_).1
        subst hjf
        have := jsize_lt_of_memO hkv
        simp [jsize]
        omega
      obtain ⟨ws, js, h1, h2, h3, h4⟩ := objU_round fs IHfs hobj
      have hM : toWasmWithType (.obj fs) ot
          = match toWasmObjU fs with
            | .ok fields => .ok (.record fields)
            | .error e => .error e := by
        cases ot with
        | none => simp [toWasmWithType]
        | some t =>
          cases t <;> first
            | exact absurd rfl (hot _)
            | simp [toWasmWithType]
      have hndws : (ws.map Prod.fst).Nodup := by rw [h2]; exact hnd
      have hD : wasmToJsonFieldsGo [] ws = .ok js := by
        have := fieldsGo_ok h3 [] (fun k _ => rfl) hndws
        simpa using this
      refine ⟨.record ws, .obj js, ?_, ?_, ?_⟩
      · rw [hM, h1]
      · simp only [wasmToJson, hD]
      · have hlen : js.length = fs.length := h4.length_eq
        simp only [jsonEq, Bool.and_eq_true]
        refine ⟨by simp [hlen], ?_⟩
        refine jsonEqObj_of_lookup js fs ?_
        intro kj hkj
        obtain ⟨kv, hkvmem, hrel⟩ := forall2_exists_mem h4 kj hkj
        obtain ⟨a, b⟩ := kv
        refine ⟨b, ?_, hrel.2⟩
        have hmem2 : (kj.1, b) ∈ fs := by
          have : kj.1 = a := hrel.1
          rw [this]
          exact hkvmem
        exact lookupAssoc_mem_nodup hnd hmem2
    constructor
    · intro hg
      cases j with
      | null => simp [goodU] at hg
      | bool b =>
        exact ⟨.bool b, .bool b, by simp [toWasmWithType],
          by simp [wasmToJson], by simp [jsonEq]⟩
      | str s2 =>
        exact ⟨.str s2, .str s2, by simp [toWasmWithType],
          by simp [wasmToJson], by simp [jsonEq]⟩
      | num m => exact num_round_untyped m hg
      | arr xs => exact hArr xs rfl (by simpa [goodU] using hg) none
      | obj fs =>
        exact hObj fs rfl none (fun rts h => by cases h)
          (by simpa [goodU] using hg)
    · intro t hgt
      cases j with
      | null => simp [goodT] at hgt
      | bool b =>
        exact ⟨.bool b, .bool b, by simp [toWasmWithType],
          by simp [wasmToJson], by simp [jsonEq]⟩
      | str s2 =>
        exact ⟨.str s2, .str s2, by simp [toWasmWithType],
          by simp [wasmToJson], by simp [jsonEq]⟩
      | num m => exact num_round_typed t m (by simpa [goodT] using hgt)
      | arr xs => exact hArr xs rfl (by simpa [goodT] using hgt) (some t)
      | obj fs =>
        cases t with
        | record rts =>
          simp only [goodT, Bool.and_eq_true, decide_eq_true_eq, beq_iff_eq,
            List.all_eq_true] at hgt
          obtain ⟨⟨⟨⟨⟨hrtsnd, hfsnd⟩, hlen⟩, hallin⟩, hnoextra⟩, hfields⟩ := hgt
          have IHrec : ∀ (n : String) (t2 : WasmType) (v : Json), (n, t2) ∈ rts →
              lookupAssoc n fs = some v → goodT t2 v = true →
              ∃ w j2, toWasmWithType v (some t2) = .ok w ∧ wasmToJson w = .ok j2
                ∧ jsonEq j2 v = true := by
            intro n t2 v hmem hlk hgv
            refine (IHx v ?_).2 t2 hgv
            have := jsize_lookup hlk
            simp [jsize]
            omega
          obtain ⟨ws, js, hM1, hkeys, hF2, hlkb⟩ :=
            recordFields_round rts fs IHrec hfields
          have hfind : fs.find? (fun kv => !((rts.map Prod.fst).contains kv.1))
              = none := by
            refine List.find?_eq_none.mpr (fun kv hkv => ?_)
            have := hnoextra kv hkv
            simp_all
          have hndws : (ws.map Prod.fst).Nodup := by rw [hkeys]; exact hrtsnd
          have hD : wasmToJsonFieldsGo [] ws = .ok js := by
            have := fieldsGo_ok hF2 [] (fun k _ => rfl) hndws
            simpa using this
          refine ⟨.record ws, .obj js, ?_, ?_, ?_⟩
          · simp only [toWasmWithType, hM1, hfind]
          · simp only [wasmToJson, hD]
          · have hl1 : js.length = ws.length := hF2.length_eq.symm
            have hl2 : ws.length = rts.length := by
              have := congrArg List.length hkeys
              simpa using this
            simp only [jsonEq, Bool.and_eq_true]
            refine ⟨by simp; omega, ?_⟩
            exact jsonEqObj_of_lookup js fs hlkb
        | bool =>
          exact hObj fs rfl _ (fun rts h => by simp at h) (by simpa [goodT] using hgt)
        | s8 =>
          exact hObj fs rfl _ (fun rts h => by simp at h) (by simpa [goodT] using hgt)
        | u8 =>
          exact hObj fs rfl _ (fun rts h => by simp at h) (by simpa [goodT] using hgt)
        | s16 =>
          exact hObj fs rfl _ (fun rts h => by simp at h) (by simpa [goodT] using hgt)
        | u16 =>
          exact hObj fs rfl _ (fun rts h => by simp at h) (by simpa [goodT] using hgt)
        | s32 =>
          exact hObj fs rfl _ (fun rts h => by simp at h) (by simpa [goodT] using hgt)
        | u32 =>
          exact hObj fs rfl _ (fun rts h => by simp at h) (by simpa [goodT] using hgt)
        | s64 =>
          exact hObj fs rfl _ (fun rts h => by simp at h) (by simpa [goodT] using hgt)
        | u64 =>
          exact hObj fs rfl _ (fun rts h => by simp at h) (by simpa [goodT] using hgt)
        | float32 =>
          exact hObj fs rfl _ (fun rts h => by simp at h) (by simpa [goodT] using hgt)
        | float64 =>
          exact hObj fs rfl _ (fun rts h => by simp at h) (by simpa [goodT] using hgt)
        | char =>
          exact hObj fs rfl _ (fun rts h => by simp at h) (by simpa [goodT] using hgt)
        | string =>
          exact hObj fs rfl _ (fun rts h => by simp at h) (by simpa [goodT] using hgt)
        | list t2 =>
          exact hObj fs rfl _ (fun rts h => by simp at h) (by simpa [goodT] using hgt)
        | tuple ts2 =>
          exact hObj fs rfl _ (fun rts h => by simp at h) (by simpa [goodT] using hgt)
        | variant cs2 =>
          exact hObj fs rfl _ (fun rts h => by simp at h) (by simpa [goodT] using hgt)
        | enum ns2 =>
          exact hObj fs rfl _ (fun rts h => by simp at h) (by simpa [goodT] using hgt)
        | option t2 =>
          exact hObj fs rfl _ (fun rts h => by simp at h) (by simpa [goodT] using hgt)
        | result o2 e2 =>
          exact hObj fs rfl _ (fun rts h => by simp at h) (by simpa [goodT] using hgt)
        | flags ns2 =>
          exact hObj fs rfl _ (fun rts h => by simp at h) (by simpa [goodT] using hgt)
        | own =>
          exact hObj fs rfl _ (fun rts h => by simp at h) (by simpa [goodT] using hgt)
        | borrow =>
          exact hObj fs rfl _ (fun rts h => by simp at h) (by simpa [goodT] using hgt)
        | future t2 =>
          exact hObj fs rfl _ (fun rts h => by simp at h) (by simpa [goodT] using hgt)
        | stream t2 =>
          exact hObj fs rfl _ (fun rts h => by simp at h) (by simpa [goodT] using hgt)
        | errorContext =>
          exact hObj fs rfl _ (fun rts h => by simp at h) (by simpa [goodT] using hgt)

/-- C1 counterexample: the claimed round-trip fails for an option —
marshalling JSON `null` against `option<s32>` produces the string value
`"null"`, which demarshals to the JSON string `"null"`, not to `null`. -/
theorem c1_roundtrip_counterexample :
    toWasmWithType Json.null (some (.option .s32)) = .ok (.str "null")
      ∧ wasmToJson (.str "null") = .ok (.str "null")
      ∧ (Json.str "null" ≠ Json.null)
      ∧ jsonEq (.str "null") Json.null = false := by
  refine ⟨?_, ?_, ?_, ?_⟩
  · simp [toWasmWithType]
  · simp [wasmToJson]
  · simp
  · simp [jsonEq]

/-- C1 amended: `wasm_to_json ∘ to_wasm_with_type` is the identity (JSON
equality taken as serde's order-insensitive object equality `jsonEq`) on
the round-trippable fragment `goodT`: booleans and strings at any type,
integers in range at the integer types, finite floats at `f64`, arrays of
untyped-round-trippable elements, records matching the declared fields,
and untyped objects.  Excluded, beyond what the claim lists: `null`
(so in particular the `None` option — see the counterexample), `f32`
targets (binary32 rounding), and integers against float targets (they
come back as float-variant JSON numbers). -/
theorem c1_roundtrip_amended (t : WasmType) (j : Json) (h : goodT t j = true) :
    ∃ v j2, toWasmWithType j (some t) = .ok v ∧ wasmToJson v = .ok j2
      ∧ jsonEq j2 j = true :=
  (roundtrip_main (jsize j) j le_rfl).2 t h

/-- Witness for C1 at a record type, with the JSON fields given in the
order opposite to the declaration. -/
theorem c1_roundtrip_amended_witness :
    goodT (.record [("x", .string), ("y", .u8)])
        (.obj [("y", .num (.int 7)), ("x", .str "hi")]) = true
      ∧ ∃ v j2,
          toWasmWithType (.obj [("y", .num (.int 7)), ("x", .str "hi")])
              (some (.record [("x", .string), ("y", .u8)])) = .ok v
            ∧ wasmToJson v = .ok j2
            ∧ jsonEq j2 (.obj [("y", .num (.int 7)), ("x", .str "hi")]) = true := by
  have hg : goodT (.record [("x", .string), ("y", .u8)])
      (.obj [("y", .num (.int 7)), ("x", .str "hi")]) = true := by
    simp [goodT, goodTFields, goodTNum, goodU, goodUObj, lookupAssoc, containsKey]
  exact ⟨hg, c1_roundtrip_amended _ _ hg⟩

end Wasmic